import Mathlib

/-!
Verification of the orgmapper repository's state core.

This file shallowly embeds the data model (`src/types.ts`), the reducer
(`orgReducer` in `src/context/OrgContext.tsx`), the persistence helpers
(`deleteOrg`, `importOrg`, `importSharedOrg`, `exportOrg` in the same file),
the sample/empty documents (`src/data/mockData.ts`) and the share codec
(`src/utils/shareUtils.ts`, including models of `JSON.stringify`,
`JSON.parse`, UTF-8 encoding as performed by
`unescape(encodeURIComponent(s))`, and `btoa`/`atob`), and proves the
frozen claims about them.

Modelling conventions:
- A JavaScript object used as a string-keyed record is an association
  list `List (String × α)` in insertion order; `{ ...obj, [k]: v }` keeps
  the position of an existing key and appends a fresh one (`aset`), and
  `delete obj[k]` removes the entry (`adel`).
- The TypeScript string-literal union types `RoleLevel`, `PersonTag` and
  `AmplitudeProduct` are modelled as `String`; no claim depends on the
  vocabularies being closed.
- Code that would throw a `TypeError` at runtime (property access on
  `undefined`, e.g. `newTeams[toTeam].personIds` for a missing team) is
  modelled as `Except.error JsFault.typeError`.  Code that silently
  spreads `undefined` into an object literal (e.g. `SET_REPORTS_TO` for a
  missing person id builds `{ reportsTo: managerId }` with every other
  required field `undefined`) produces a value that is not representable
  in the typed model; those branches are modelled as
  `Except.error JsFault.corrupt` and no claim's proof depends on them.
-/

/-- Runtime faults of the JavaScript source that have no typed result:
`typeError` models a thrown `TypeError` (property access on `undefined`),
`corrupt` models silently building an object that is missing required
fields (spreading `undefined`). -/
inductive JsFault where
  | typeError
  | corrupt
deriving DecidableEq

/-- Association list with string keys: the model of a JavaScript object
used as a record, in property insertion order. -/
abbrev JsObj (α : Type) := List (String × α)

/-- Property lookup `obj[k]`: the value at the first occurrence of key
`k`, or `none` when the key is absent (JavaScript `undefined`). -/
def alookup (k : String) : JsObj α → Option α
  | [] => none
  | (k', v) :: rest => if k' = k then some v else alookup k rest

/-- The object spread update `{ ...obj, [k]: v }`: replaces the value at
an existing key `k` in place, otherwise appends the new entry. -/
def aset (k : String) (v : α) : JsObj α → JsObj α
  | [] => [(k, v)]
  | (k', v') :: rest => if k' = k then (k', v) :: rest else (k', v') :: aset k v rest

/-- The `delete obj[k]` operation: removes the entry with key `k`. -/
def adel (k : String) (l : JsObj α) : JsObj α :=
  l.filter (fun kv => kv.1 != k)

/-- Person, from `src/types.ts`.  `email`, `avatar` and `reportsTo` are
optional; `level` and the `tags` entries are strings drawn from the fixed
vocabularies of `types.ts`. -/
structure Person where
  id : String
  name : String
  role : String
  level : String
  email : Option String
  avatar : Option String
  tags : List String
  reportsTo : Option String
  teamId : String
deriving DecidableEq

/-- Team, from `src/types.ts`. -/
structure Team where
  id : String
  name : String
  color : String
  personIds : List String
  products : List String
deriving DecidableEq

/-- OrgState, from `src/types.ts`: the Organization Document. -/
structure OrgState where
  teams : JsObj Team
  people : JsObj Person
  orgProducts : List String
deriving DecidableEq

/-- The payload of the `ADD_PERSON` action: `Omit<Person, 'id'>`. -/
structure PersonData where
  name : String
  role : String
  level : String
  email : Option String
  avatar : Option String
  tags : List String
  reportsTo : Option String
  teamId : String
deriving DecidableEq

/-- A `Partial<Person>` update payload for `UPDATE_PERSON`.  A present
field overwrites, an absent field keeps the current value.  The `id`
field is not included: identifiers are stable per the data model and no
caller updates them. -/
structure PersonUpdates where
  name : Option String
  role : Option String
  level : Option String
  email : Option String
  avatar : Option String
  tags : Option (List String)
  reportsTo : Option String
  teamId : Option String
deriving DecidableEq

/-- The object spread merge `{ ...currentPerson, ...updates }`. -/
def mergePerson (p : Person) (u : PersonUpdates) : Person :=
  { id := p.id
    name := u.name.getD p.name
    role := u.role.getD p.role
    level := u.level.getD p.level
    email := match u.email with | some e => some e | none => p.email
    avatar := match u.avatar with | some a => some a | none => p.avatar
    tags := u.tags.getD p.tags
    reportsTo := match u.reportsTo with | some r => some r | none => p.reportsTo
    teamId := u.teamId.getD p.teamId }

/-- Builds the new `Person` of `ADD_PERSON`: `{ ...action.person, id }`.
The reducer calls `generateId()`; the generated id is modelled as an
explicit oracle argument carried by the action. -/
def personOf (d : PersonData) (id : String) : Person :=
  { id := id, name := d.name, role := d.role, level := d.level
    email := d.email, avatar := d.avatar, tags := d.tags
    reportsTo := d.reportsTo, teamId := d.teamId }

/-- The `OrgAction` union of `src/context/OrgContext.tsx`.  `addPerson`
carries the id produced by `generateId()` as an oracle argument. -/
inductive OrgAction where
  | movePerson (personId : String) (fromTeam : String) (toTeam : String)
  | addPerson (person : PersonData) (genId : String)
  | updatePerson (personId : String) (updates : PersonUpdates)
  | deletePerson (personId : String)
  | setReportsTo (personId : String) (managerId : Option String)
  | toggleTag (personId : String) (tag : String)
  | renameTeam (teamId : String) (newName : String)
  | addTeam (team : Team)
  | deleteTeam (teamId : String)
  | toggleTeamProduct (teamId : String) (product : String)
  | toggleOrgProduct (product : String)
  | loadOrg (state : OrgState)
  | clearOrg
deriving DecidableEq

/-- The fixed default teams of `createEmptyOrgState` in
`src/data/mockData.ts`. -/
def createEmptyOrgState : OrgState :=
  { teams :=
      [ ("executive", { id := "executive", name := "Executive", color := "#1a1a2e", personIds := [], products := [] })
      , ("product", { id := "product", name := "Product", color := "#16213e", personIds := [], products := [] })
      , ("engineering", { id := "engineering", name := "Engineering", color := "#0f3460", personIds := [], products := [] })
      , ("data-science", { id := "data-science", name := "Data Science", color := "#1a1a40", personIds := [], products := [] })
      , ("sales", { id := "sales", name := "Sales", color := "#2d132c", personIds := [], products := [] })
      , ("marketing", { id := "marketing", name := "Marketing", color := "#1e1e2f", personIds := [], products := [] })
      , ("operations", { id := "operations", name := "Operations", color := "#252836", personIds := [], products := [] }) ]
    people := []
    orgProducts := [] }

/-- The reducer `orgReducer` of `src/context/OrgContext.tsx`, as a total
function into `Except JsFault OrgState`; see the file header for the
fault conventions. -/
def orgReducer (state : OrgState) (action : OrgAction) : Except JsFault OrgState :=
  match action with
  | .movePerson personId fromTeam toTeam =>
    if fromTeam = toTeam then .ok state
    else
      match alookup fromTeam state.teams, alookup toTeam state.teams with
      | some ft, some tt =>
        let newTeams :=
          aset toTeam { tt with personIds := tt.personIds ++ [personId] }
            (aset fromTeam { ft with personIds := ft.personIds.filter (fun id => id != personId) } state.teams)
        match alookup personId state.people with
        | some p =>
          .ok { state with teams := newTeams
                           people := aset personId { p with teamId := toTeam } state.people }
        | none => .error .corrupt
      | _, _ => .error .typeError
  | .addPerson person genId =>
    match alookup person.teamId state.teams with
    | some t =>
      .ok { state with
              teams := aset person.teamId { t with personIds := t.personIds ++ [genId] } state.teams
              people := aset genId (personOf person genId) state.people }
    | none => .error .typeError
  | .updatePerson personId updates =>
    match alookup personId state.people with
    | none => .ok state
    | some currentPerson =>
      match updates.teamId with
      | some newTid =>
        if newTid ≠ "" ∧ newTid ≠ currentPerson.teamId then
          match alookup currentPerson.teamId state.teams, alookup newTid state.teams with
          | some oldT, some newT =>
            .ok { state with
                    teams := aset newTid { newT with personIds := newT.personIds ++ [personId] }
                      (aset currentPerson.teamId
                        { oldT with personIds := oldT.personIds.filter (fun id => id != personId) } state.teams)
                    people := aset personId (mergePerson currentPerson updates) state.people }
          | _, _ => .error .typeError
        else .ok { state with people := aset personId (mergePerson currentPerson updates) state.people }
      | none => .ok { state with people := aset personId (mergePerson currentPerson updates) state.people }
  | .deletePerson personId =>
    match alookup personId state.people with
    | none => .ok state
    | some person =>
      match alookup person.teamId state.teams with
      | none => .error .typeError
      | some t =>
        let newTeams :=
          aset person.teamId { t with personIds := t.personIds.filter (fun id => id != personId) } state.teams
        let newPeople :=
          (adel personId state.people).map (fun kv =>
            if kv.2.reportsTo = some personId then (kv.1, { kv.2 with reportsTo := none }) else kv)
        .ok { state with teams := newTeams, people := newPeople }
  | .setReportsTo personId managerId =>
    match alookup personId state.people with
    | some p => .ok { state with people := aset personId { p with reportsTo := managerId } state.people }
    | none => .error .corrupt
  | .toggleTag personId tag =>
    match alookup personId state.people with
    | none => .ok state
    | some person =>
      let newTags :=
        if tag ∈ person.tags then person.tags.filter (fun t => t != tag) else person.tags ++ [tag]
      .ok { state with people := aset personId { person with tags := newTags } state.people }
  | .renameTeam teamId newName =>
    match alookup teamId state.teams with
    | some t => .ok { state with teams := aset teamId { t with name := newName } state.teams }
    | none => .error .corrupt
  | .addTeam team => .ok { state with teams := aset team.id team state.teams }
  | .deleteTeam teamId =>
    match alookup teamId state.teams with
    | none => .ok state
    | some team =>
      if team.personIds.length > 0 then .ok state
      else .ok { state with teams := adel teamId state.teams }
  | .toggleTeamProduct teamId product =>
    match alookup teamId state.teams with
    | none => .ok state
    | some team =>
      if product ∉ state.orgProducts ∧ product ∉ team.products then .ok state
      else
        let newProducts :=
          if product ∈ team.products then team.products.filter (fun p => p != product)
          else team.products ++ [product]
        .ok { state with teams := aset teamId { team with products := newProducts } state.teams }
  | .toggleOrgProduct product =>
    let newOrgProducts :=
      if product ∈ state.orgProducts then state.orgProducts.filter (fun p => p != product)
      else state.orgProducts ++ [product]
    if product ∉ newOrgProducts then
      .ok { state with
              orgProducts := newOrgProducts
              teams := state.teams.map (fun kv =>
                if product ∈ kv.2.products then
                  (kv.1, { kv.2 with products := kv.2.products.filter (fun p => p != product) })
                else kv) }
    else .ok { state with orgProducts := newOrgProducts }
  | .loadOrg st => .ok st
  | .clearOrg => .ok createEmptyOrgState

/-- The sample document `initialOrgState` of `src/data/mockData.ts`. -/
def initialOrgState : OrgState :=
  { teams :=
      [ ("executive", { id := "executive", name := "Executive", color := "#1a1a2e", personIds := ["p1"], products := [] })
      , ("product", { id := "product", name := "Product", color := "#16213e", personIds := ["p2", "p3", "p4"], products := ["analytics", "experiment", "session-replay"] })
      , ("engineering", { id := "engineering", name := "Engineering", color := "#0f3460", personIds := ["p5", "p6", "p7", "p8"], products := ["analytics", "session-replay"] })
      , ("data-science", { id := "data-science", name := "Data Science", color := "#1a1a40", personIds := ["p9", "p10"], products := ["analytics", "experiment"] })
      , ("sales", { id := "sales", name := "Sales", color := "#2d132c", personIds := ["p11", "p12"], products := [] })
      , ("marketing", { id := "marketing", name := "Marketing", color := "#1e1e2f", personIds := ["p13"], products := ["analytics", "guides-surveys"] })
      , ("operations", { id := "operations", name := "Operations", color := "#252836", personIds := ["p14"], products := [] }) ]
    people :=
      [ ("p1", { id := "p1", name := "Sarah Chen", role := "Chief Technology Officer", level := "executive", email := some "sarah.chen@cisco.com", avatar := none, tags := ["decision-maker"], reportsTo := none, teamId := "executive" })
      , ("p2", { id := "p2", name := "Marcus Williams", role := "VP of Product", level := "vp", email := some "marcus.w@cisco.com", avatar := none, tags := ["champion", "decision-maker"], reportsTo := some "p1", teamId := "product" })
      , ("p3", { id := "p3", name := "Elena Rodriguez", role := "Director of Product", level := "director", email := some "elena.r@cisco.com", avatar := none, tags := ["power-user"], reportsTo := some "p2", teamId := "product" })
      , ("p4", { id := "p4", name := "James Park", role := "Senior Product Manager", level := "manager", email := some "james.p@cisco.com", avatar := none, tags := ["champion"], reportsTo := some "p3", teamId := "product" })
      , ("p5", { id := "p5", name := "Aisha Patel", role := "VP of Engineering", level := "vp", email := some "aisha.p@cisco.com", avatar := none, tags := ["decision-maker"], reportsTo := some "p1", teamId := "engineering" })
      , ("p6", { id := "p6", name := "David Kim", role := "Engineering Director", level := "director", email := some "david.k@cisco.com", avatar := none, tags := ["influencer"], reportsTo := some "p5", teamId := "engineering" })
      , ("p7", { id := "p7", name := "Lisa Chang", role := "Staff Engineer", level := "ic", email := some "lisa.c@cisco.com", avatar := none, tags := ["power-user", "champion"], reportsTo := some "p6", teamId := "engineering" })
      , ("p8", { id := "p8", name := "Michael Torres", role := "Senior Engineer", level := "ic", email := some "michael.t@cisco.com", avatar := none, tags := [], reportsTo := some "p6", teamId := "engineering" })
      , ("p9", { id := "p9", name := "Priya Sharma", role := "Director of Data Science", level := "director", email := some "priya.s@cisco.com", avatar := none, tags := ["power-user", "influencer"], reportsTo := some "p1", teamId := "data-science" })
      , ("p10", { id := "p10", name := "Alex Johnson", role := "Senior Data Scientist", level := "ic", email := some "alex.j@cisco.com", avatar := none, tags := ["champion"], reportsTo := some "p9", teamId := "data-science" })
      , ("p11", { id := "p11", name := "Rachel Green", role := "VP of Sales", level := "vp", email := some "rachel.g@cisco.com", avatar := none, tags := ["decision-maker"], reportsTo := some "p1", teamId := "sales" })
      , ("p12", { id := "p12", name := "Tom Anderson", role := "Account Executive", level := "ic", email := some "tom.a@cisco.com", avatar := none, tags := ["influencer"], reportsTo := some "p11", teamId := "sales" })
      , ("p13", { id := "p13", name := "Nina Foster", role := "Marketing Director", level := "director", email := some "nina.f@cisco.com", avatar := none, tags := [], reportsTo := some "p1", teamId := "marketing" })
      , ("p14", { id := "p14", name := "Chris Lee", role := "Operations Manager", level := "manager", email := some "chris.l@cisco.com", avatar := none, tags := ["blocker"], reportsTo := some "p1", teamId := "operations" }) ]
    orgProducts := ["analytics", "experiment", "session-replay", "guides-surveys"] }

/-- Saved-organization catalog record (`SavedOrg` in
`src/context/OrgContext.tsx`). -/
structure SavedOrg where
  id : String
  name : String
  createdAt : String
  updatedAt : String
deriving DecidableEq

/-- The provider-level state of `OrgProvider`: the catalog (`savedOrgs`),
the current-organization pointer (`currentOrgId`), the current in-memory
document (`state`) and the per-organization localStorage contents
(`storage`, keyed by organization id, standing for the keys
`orgmapper_data_<orgId>`). -/
structure ProviderState where
  savedOrgs : List SavedOrg
  currentOrgId : String
  state : OrgState
  storage : JsObj OrgState
deriving DecidableEq

/-- Storage read `loadFromStorage` of `src/context/OrgContext.tsx`.  The
typed `storage` only holds structurally valid documents, so the
`parsed.teams && parsed.people` validation of the source always passes
here. -/
def loadFromStorage (storage : JsObj OrgState) (orgId : String) : Option OrgState :=
  alookup orgId storage

/-- The `loadOrg` callback of `OrgProvider`: loads the stored document of
`orgId` and makes it current; does nothing when the store has no valid
document under that id. -/
def loadOrgOp (ps : ProviderState) (orgId : String) : ProviderState :=
  match loadFromStorage ps.storage orgId with
  | some orgState => { ps with state := orgState, currentOrgId := orgId }
  | none => ps

/-- The `deleteOrg` callback of `OrgProvider`.  Refuses (returns the
state unchanged) when at most one organization remains; otherwise
removes the stored document and the catalog record, and, when the
deleted organization was current, switches to the first remaining one.
`updatedOrgs[0].id` on an empty remainder would throw, modelled as
`JsFault.typeError`. -/
def deleteOrg (ps : ProviderState) (orgId : String) : Except JsFault ProviderState :=
  if ps.savedOrgs.length ≤ 1 then .ok ps
  else
    let ps1 : ProviderState :=
      { ps with storage := adel orgId ps.storage
                savedOrgs := ps.savedOrgs.filter (fun o => o.id != orgId) }
    if ps.currentOrgId = orgId then
      match ps1.savedOrgs with
      | [] => .error .typeError
      | o :: _ => .ok (loadOrgOp ps1 o.id)
    else .ok ps1

/-! Helper lemmas about the JavaScript-object operations. -/

theorem alookup_aset_self (k : String) (v : α) (l : JsObj α) :
    alookup k (aset k v l) = some v := by
  induction l with
  | nil => simp [aset, alookup]
  | cons hd tl ih =>
    obtain ⟨k', v'⟩ := hd
    by_cases h : k' = k <;> simp [aset, alookup, h, ih]

theorem alookup_aset_ne (kq k : String) (v : α) (l : JsObj α) (h : kq ≠ k) :
    alookup kq (aset k v l) = alookup kq l := by
  induction l with
  | nil => simp [aset, alookup, Ne.symm h]
  | cons hd tl ih =>
    obtain ⟨k', v'⟩ := hd
    by_cases hk : k' = k
    · subst hk
      simp [aset, alookup, Ne.symm h]
    · by_cases hq : k' = kq <;> simp [aset, alookup, hk, hq, h, ih]

theorem mem_of_alookup_eq_some {k : String} {v : α} {l : JsObj α}
    (h : alookup k l = some v) : (k, v) ∈ l := by
  induction l with
  | nil => simp [alookup] at h
  | cons hd tl ih =>
    obtain ⟨k', v'⟩ := hd
    by_cases hk : k' = k
    · subst hk
      simp [alookup] at h
      simp [h]
    · simp [alookup, hk] at h
      simp [ih h]

theorem alookup_eq_some_of_mem {k : String} {v : α} {l : JsObj α}
    (hnd : (l.map Prod.fst).Nodup) (h : (k, v) ∈ l) : alookup k l = some v := by
  induction l with
  | nil => simp at h
  | cons hd tl ih =>
    obtain ⟨k', v'⟩ := hd
    simp only [List.map_cons, List.nodup_cons] at hnd
    rcases List.mem_cons.mp h with h | h
    · obtain ⟨h1, h2⟩ := Prod.ext_iff.mp h
      subst h1
      subst h2
      simp [alookup]
    · have hk : k' ≠ k := by
        intro he
        subst he
        exact hnd.1 (List.mem_map.mpr ⟨(k', v), h, rfl⟩)
      simp [alookup, hk, ih hnd.2 h]

theorem alookup_eq_none_iff (k : String) (l : JsObj α) :
    alookup k l = none ↔ ∀ x ∈ l, x.1 ≠ k := by
  induction l with
  | nil => simp [alookup]
  | cons hd tl ih =>
    obtain ⟨k', v'⟩ := hd
    by_cases hk : k' = k <;> simp [alookup, hk, ih]

theorem mem_aset_iff {l : JsObj α} (hnd : (l.map Prod.fst).Nodup)
    (k : String) (v : α) (x : String × α) :
    x ∈ aset k v l ↔ x = (k, v) ∨ (x ∈ l ∧ x.1 ≠ k) := by
  induction l with
  | nil =>
    constructor
    · intro hx
      simp [aset] at hx
      simp [hx]
    · rintro (hx | ⟨hx, _⟩)
      · simp [aset, hx]
      · simp at hx
  | cons hd tl ih =>
    obtain ⟨k', v'⟩ := hd
    simp only [List.map_cons, List.nodup_cons] at hnd
    by_cases hk : k' = k
    · subst hk
      have haset : aset k' v ((k', v') :: tl) = (k', v) :: tl := by
        simp [aset]
      rw [haset]
      constructor
      · intro hx
        rcases List.mem_cons.mp hx with hx | hx
        · exact Or.inl hx
        · right
          refine ⟨List.mem_cons_of_mem _ hx, ?_⟩
          intro he
          apply hnd.1
          exact he ▸ List.mem_map.mpr ⟨x, hx, rfl⟩
      · rintro (hx | ⟨hx, hne⟩)
        · exact hx ▸ List.mem_cons_self _ _
        · rcases List.mem_cons.mp hx with hx | hx
          · exact absurd (by rw [hx]) hne
          · exact List.mem_cons_of_mem _ hx
    · have haset : aset k v ((k', v') :: tl) = (k', v') :: aset k v tl := by
        simp [aset, hk]
      rw [haset]
      constructor
      · intro hx
        rcases List.mem_cons.mp hx with hx | hx
        · exact Or.inr ⟨hx ▸ List.mem_cons_self _ _, hx ▸ hk⟩
        · rcases (ih hnd.2).mp hx with hx | ⟨hx, hne⟩
          · exact Or.inl hx
          · exact Or.inr ⟨List.mem_cons_of_mem _ hx, hne⟩
      · rintro (hx | ⟨hx, hne⟩)
        · exact List.mem_cons_of_mem _ ((ih hnd.2).mpr (Or.inl hx))
        · rcases List.mem_cons.mp hx with hx | hx
          · exact hx ▸ List.mem_cons_self _ _
          · exact List.mem_cons_of_mem _ ((ih hnd.2).mpr (Or.inr ⟨hx, hne⟩))

theorem keys_aset_of_isSome {l : JsObj α} {k : String}
    (h : (alookup k l).isSome) (v : α) :
    (aset k v l).map Prod.fst = l.map Prod.fst := by
  induction l with
  | nil => simp [alookup] at h
  | cons hd tl ih =>
    obtain ⟨k', v'⟩ := hd
    by_cases hk : k' = k
    · simp [aset, hk]
    · simp [alookup, hk] at h
      simp [aset, hk, ih h]

theorem keys_aset_of_none {l : JsObj α} {k : String}
    (h : alookup k l = none) (v : α) :
    (aset k v l).map Prod.fst = l.map Prod.fst ++ [k] := by
  induction l with
  | nil => simp [aset]
  | cons hd tl ih =>
    obtain ⟨k', v'⟩ := hd
    by_cases hk : k' = k
    · simp [alookup, hk] at h
    · simp [alookup, hk] at h
      simp [aset, hk, ih h]

theorem aset_eq_self_of_mem {l : JsObj α} {k : String} {v : α}
    (h : alookup k l = some v) : aset k v l = l := by
  induction l with
  | nil => simp [alookup] at h
  | cons hd tl ih =>
    obtain ⟨k', v'⟩ := hd
    by_cases hk : k' = k
    · subst hk
      simp [alookup] at h
      simp [aset, h]
    · simp [alookup, hk] at h
      simp [aset, hk, ih h]

theorem aset_aset_same (k : String) (v v' : α) (l : JsObj α) :
    aset k v' (aset k v l) = aset k v' l := by
  induction l with
  | nil => simp [aset]
  | cons hd tl ih =>
    obtain ⟨k', w⟩ := hd
    by_cases hk : k' = k <;> simp [aset, hk, ih]

theorem alookup_adel_self (k : String) (l : JsObj α) :
    alookup k (adel k l) = none := by
  induction l with
  | nil => rfl
  | cons hd tl ih =>
    obtain ⟨k', v'⟩ := hd
    by_cases hk : k' = k
    · simpa [adel, List.filter_cons, hk] using ih
    · simpa [adel, List.filter_cons, hk, alookup] using ih

theorem alookup_adel_ne (kq k : String) (l : JsObj α) (h : kq ≠ k) :
    alookup kq (adel k l) = alookup kq l := by
  induction l with
  | nil => rfl
  | cons hd tl ih =>
    obtain ⟨k', v'⟩ := hd
    by_cases hk : k' = k
    · subst hk
      simpa [adel, List.filter_cons, alookup, Ne.symm h] using ih
    · by_cases hq : k' = kq
      · simp [adel, List.filter_cons, alookup, hk, hq, h]
      · simpa [adel, List.filter_cons, alookup, hk, hq, h] using ih

/-! Claim theorems about the reducer. -/

/-- C10: for every document `s` and product `p` not currently in
`s.orgProducts`, `TOGGLE_ORG_PRODUCT` adds `p` to `orgProducts` and
leaves the teams mapping and the people mapping unchanged. -/
theorem c10_toggleOrgProduct_enable_frame (s : OrgState) (p : String)
    (h : p ∉ s.orgProducts) :
    ∃ s2, orgReducer s (OrgAction.toggleOrgProduct p) = Except.ok s2 ∧
      s2.orgProducts = s.orgProducts ++ [p] ∧ s2.teams = s.teams ∧ s2.people = s.people := by
  refine ⟨{ s with orgProducts := s.orgProducts ++ [p] }, ?_, rfl, rfl, rfl⟩
  simp [orgReducer, h]

/-- Witness for C10 at a concrete document. -/
theorem c10_toggleOrgProduct_enable_frame_witness :
    "analytics" ∉ createEmptyOrgState.orgProducts ∧
      ∃ s2, orgReducer createEmptyOrgState (OrgAction.toggleOrgProduct "analytics") = Except.ok s2 ∧
        s2.orgProducts = createEmptyOrgState.orgProducts ++ ["analytics"] ∧
        s2.teams = createEmptyOrgState.teams ∧ s2.people = createEmptyOrgState.people :=
  ⟨by decide, c10_toggleOrgProduct_enable_frame createEmptyOrgState "analytics" (by decide)⟩

/-- C6: for every document `s` and product `p` currently in
`s.orgProducts`, `TOGGLE_ORG_PRODUCT` removes `p` from `orgProducts` and
from every team's products list (cascading revoke), leaving the team
keys and the people mapping unchanged. -/
theorem c6_toggleOrgProduct_disable_cascades (s : OrgState) (p : String)
    (h : p ∈ s.orgProducts) :
    ∃ s2, orgReducer s (OrgAction.toggleOrgProduct p) = Except.ok s2 ∧
      p ∉ s2.orgProducts ∧
      s2.orgProducts = s.orgProducts.filter (fun q => q != p) ∧
      (∀ kv ∈ s2.teams, p ∉ kv.2.products) ∧
      s2.teams.map Prod.fst = s.teams.map Prod.fst ∧
      s2.people = s.people := by
  have hnotin : p ∉ s.orgProducts.filter (fun q => q != p) := by
    simp [List.mem_filter]
  refine ⟨{ s with
      orgProducts := s.orgProducts.filter (fun q => q != p)
      teams := s.teams.map (fun kv =>
        if p ∈ kv.2.products then
          (kv.1, { kv.2 with products := kv.2.products.filter (fun q => q != p) })
        else kv) }, ?_, ?_, ?_, ?_, ?_, ?_⟩
  · simp only [orgReducer, if_pos h, if_pos hnotin]
  · exact hnotin
  · rfl
  · intro kv hkv
    rcases List.mem_map.mp hkv with ⟨kv0, hkv0, rfl⟩
    by_cases hc : p ∈ kv0.2.products
    · simp [hc, List.mem_filter]
    · simp [hc]
  · rw [List.map_map]
    apply List.map_congr_left
    intro kv _
    by_cases hc : p ∈ kv.2.products <;> simp [hc]
  · rfl

/-- Witness for C6 at the sample document. -/
theorem c6_toggleOrgProduct_disable_cascades_witness :
    "analytics" ∈ initialOrgState.orgProducts ∧
      ∃ s2, orgReducer initialOrgState (OrgAction.toggleOrgProduct "analytics") = Except.ok s2 ∧
        "analytics" ∉ s2.orgProducts ∧
        s2.orgProducts = initialOrgState.orgProducts.filter (fun q => q != "analytics") ∧
        (∀ kv ∈ s2.teams, "analytics" ∉ kv.2.products) ∧
        s2.teams.map Prod.fst = initialOrgState.teams.map Prod.fst ∧
        s2.people = initialOrgState.people :=
  ⟨by decide, c6_toggleOrgProduct_disable_cascades initialOrgState "analytics" (by decide)⟩

/-- C7: for every document `s` and team `t` existing under key `tid`,
`DELETE_TEAM` is the identity when the team still has members, and
removes exactly the team's entry when its membership is empty. -/
theorem c7_deleteTeam_guard (s : OrgState) (tid : String) (t : Team)
    (h : alookup tid s.teams = some t) :
    (t.personIds ≠ [] → orgReducer s (OrgAction.deleteTeam tid) = Except.ok s) ∧
    (t.personIds = [] →
      orgReducer s (OrgAction.deleteTeam tid) = Except.ok { s with teams := adel tid s.teams }) := by
  constructor
  · intro hne
    have hlen : t.personIds.length > 0 := List.length_pos.mpr hne
    simp [orgReducer, h, hlen]
  · intro hemp
    simp [orgReducer, h, hemp]

/-- Witness for C7 at the sample document (team "executive" has a member;
a freshly added empty team is deleted). -/
theorem c7_deleteTeam_guard_witness :
    alookup "executive" initialOrgState.teams =
        some { id := "executive", name := "Executive", color := "#1a1a2e", personIds := ["p1"], products := [] } ∧
      (["p1"] ≠ ([] : List String) →
        orgReducer initialOrgState (OrgAction.deleteTeam "executive") = Except.ok initialOrgState) :=
  ⟨by decide,
    (c7_deleteTeam_guard initialOrgState "executive"
      { id := "executive", name := "Executive", color := "#1a1a2e", personIds := ["p1"], products := [] }
      (by decide)).1⟩

/-- C5: for every document containing a person `p` under key `pid` whose
team exists, `DELETE_PERSON` removes the person, removes the id from its
team's membership list, clears `reportsTo` on every other person that
pointed at `pid`, and keeps every other person (with every other field,
including any other `reportsTo` value, unchanged). -/
theorem c5_deletePerson_cascade (s : OrgState) (pid : String) (p : Person) (t : Team)
    (hp : alookup pid s.people = some p)
    (ht : alookup p.teamId s.teams = some t) :
    ∃ s2, orgReducer s (OrgAction.deletePerson pid) = Except.ok s2 ∧
      alookup pid s2.people = none ∧
      alookup p.teamId s2.teams =
        some { t with personIds := t.personIds.filter (fun id => id != pid) } ∧
      (∀ kv ∈ s.people, kv.1 ≠ pid →
        (kv.1, if kv.2.reportsTo = some pid then { kv.2 with reportsTo := none } else kv.2)
          ∈ s2.people) ∧
      (∀ kv ∈ s2.people, kv.1 ≠ pid) := by
  refine ⟨{ s with
      teams := aset p.teamId { t with personIds := t.personIds.filter (fun id => id != pid) } s.teams
      people := (adel pid s.people).map (fun kv =>
        if kv.2.reportsTo = some pid then (kv.1, { kv.2 with reportsTo := none }) else kv) },
    ?_, ?_, ?_, ?_, ?_⟩
  · simp only [orgReducer, hp, ht]
  · rw [alookup_eq_none_iff]
    intro x hx
    rcases List.mem_map.mp hx with ⟨kv0, hkv0, rfl⟩
    have hkv0ne : kv0.1 ≠ pid := by
      have := (alookup_eq_none_iff pid (adel pid s.people)).mp (alookup_adel_self pid s.people)
      exact this kv0 hkv0
    by_cases hc : kv0.2.reportsTo = some pid <;> simp [hc, hkv0ne]
  · exact alookup_aset_self _ _ _
  · intro kv hkv hne
    have hmem : kv ∈ adel pid s.people := by
      simp only [adel, List.mem_filter]
      exact ⟨hkv, by simpa using hne⟩
    refine List.mem_map.mpr ⟨kv, hmem, ?_⟩
    by_cases hc : kv.2.reportsTo = some pid
    · simp [hc]
    · simp [hc]
  · intro kv hkv
    rcases List.mem_map.mp hkv with ⟨kv0, hkv0, rfl⟩
    have hkv0ne : kv0.1 ≠ pid := by
      have := (alookup_eq_none_iff pid (adel pid s.people)).mp (alookup_adel_self pid s.people)
      exact this kv0 hkv0
    by_cases hc : kv0.2.reportsTo = some pid <;> simp [hc, hkv0ne]

/-- Witness for C5: deleting p6 from the sample document clears the
manager reference of p7 and p8 and keeps p5's reference to p1. -/
theorem c5_deletePerson_cascade_witness :
    (alookup "p6" initialOrgState.people).isSome ∧
      ∃ s2, orgReducer initialOrgState (OrgAction.deletePerson "p6") = Except.ok s2 ∧
        alookup "p6" s2.people = none := by
  have hp : alookup "p6" initialOrgState.people =
      some { id := "p6", name := "David Kim", role := "Engineering Director", level := "director",
             email := some "david.k@cisco.com", avatar := none, tags := ["influencer"],
             reportsTo := some "p5", teamId := "engineering" } := by decide
  obtain ⟨s2, h1, h2, _⟩ :=
    c5_deletePerson_cascade initialOrgState "p6"
      { id := "p6", name := "David Kim", role := "Engineering Director", level := "director",
        email := some "david.k@cisco.com", avatar := none, tags := ["influencer"],
        reportsTo := some "p5", teamId := "engineering" }
      { id := "engineering", name := "Engineering", color := "#0f3460",
        personIds := ["p5", "p6", "p7", "p8"], products := ["analytics", "session-replay"] }
      hp (by decide)
  exact ⟨by rw [hp]; rfl, s2, h1, h2⟩

/-- A person payload targeting a team id that exists in no document used
below; used to exhibit the `ADD_PERSON` crash. -/
def ghostPersonData : PersonData :=
  { name := "Ghost", role := "Contractor", level := "ic", email := none, avatar := none,
    tags := [], reportsTo := none, teamId := "no-such-team" }

/-- C2 counterexample: the reducer does not always return normally.
`ADD_PERSON` whose payload names a missing team evaluates
`newTeams[action.person.teamId].personIds` on `undefined` and throws a
`TypeError` instead of returning the document unchanged. -/
theorem c2_counterexample_addPerson_throws :
    orgReducer createEmptyOrgState (OrgAction.addPerson ghostPersonData "pX") =
      Except.error JsFault.typeError := by rfl

/-- C2 as amended: the commands whose cases guard their lookup —
`UPDATE_PERSON`, `DELETE_PERSON`, `TOGGLE_TAG`, `DELETE_TEAM`,
`TOGGLE_TEAM_PRODUCT` — return the document unchanged when the
referenced person or team is missing; but `ADD_PERSON` (and likewise
`MOVE_PERSON`) throws a `TypeError` when the referenced team is missing,
and `SET_REPORTS_TO` / `RENAME_TEAM` on a missing referent do not return
the document unchanged (they build an entry missing required fields,
modelled as the corrupt-document fault). -/
theorem c2_amended_guarded_identity (s : OrgState) (pid tid tg nm pr gid : String)
    (u : PersonUpdates) (d : PersonData) (mid : Option String)
    (hp : alookup pid s.people = none)
    (ht : alookup tid s.teams = none)
    (hd : alookup d.teamId s.teams = none) :
    orgReducer s (OrgAction.updatePerson pid u) = Except.ok s ∧
    orgReducer s (OrgAction.deletePerson pid) = Except.ok s ∧
    orgReducer s (OrgAction.toggleTag pid tg) = Except.ok s ∧
    orgReducer s (OrgAction.deleteTeam tid) = Except.ok s ∧
    orgReducer s (OrgAction.toggleTeamProduct tid pr) = Except.ok s ∧
    orgReducer s (OrgAction.addPerson d gid) = Except.error JsFault.typeError ∧
    orgReducer s (OrgAction.setReportsTo pid mid) = Except.error JsFault.corrupt ∧
    orgReducer s (OrgAction.renameTeam tid nm) = Except.error JsFault.corrupt := by
  refine ⟨?_, ?_, ?_, ?_, ?_, ?_, ?_, ?_⟩ <;> simp [orgReducer, hp, ht, hd]

/-- Witness for the amended C2 at a concrete document. -/
theorem c2_amended_guarded_identity_witness :
    alookup "nobody" createEmptyOrgState.people = none ∧
      orgReducer createEmptyOrgState (OrgAction.deletePerson "nobody") =
        Except.ok createEmptyOrgState :=
  ⟨by decide,
    (c2_amended_guarded_identity createEmptyOrgState "nobody" "no-such-team" "champion"
      "NewName" "analytics" "pX"
      { name := none, role := none, level := none, email := none, avatar := none,
        tags := none, reportsTo := none, teamId := none }
      ghostPersonData none (by decide) (by decide) (by decide)).2.1⟩

/-- C8: moving a person from its team `a` to a distinct existing team `b`
and back restores the people mapping exactly and every team's membership
list up to order (the moved id is re-appended at the end of `a`'s list).
The hypotheses spell out that the document is well-formed at the two
teams involved: the person is a member of `a`'s list and not of `b`'s,
and team keys are unique. -/
theorem c8_move_roundtrip (s : OrgState) (pid a b : String) (p : Person) (ta tb : Team)
    (hp : alookup pid s.people = some p)
    (hpa : p.teamId = a)
    (hA : alookup a s.teams = some ta)
    (hB : alookup b s.teams = some tb)
    (hab : a ≠ b)
    (hmemA : pid ∈ ta.personIds)
    (hnotB : pid ∉ tb.personIds) :
    ∃ s1 s2,
      orgReducer s (OrgAction.movePerson pid a b) = Except.ok s1 ∧
      orgReducer s1 (OrgAction.movePerson pid b a) = Except.ok s2 ∧
      s2.people = s.people ∧
      s2.teams.map Prod.fst = s.teams.map Prod.fst ∧
      (∀ k t2, alookup k s2.teams = some t2 →
        ∃ t1, alookup k s.teams = some t1 ∧ ∀ x, x ∈ t2.personIds ↔ x ∈ t1.personIds) := by
  have hba : b ≠ a := Ne.symm hab
  set taF : Team := { ta with personIds := ta.personIds.filter (fun id => id != pid) } with htaF
  set tbX : Team := { tb with personIds := tb.personIds ++ [pid] } with htbX
  set teams1 : JsObj Team := aset b tbX (aset a taF s.teams) with hteams1
  set people1 : JsObj Person := aset pid { p with teamId := b } s.people with hpeople1
  have hstep1 : orgReducer s (OrgAction.movePerson pid a b) =
      Except.ok { s with teams := teams1, people := people1 } := by
    simp only [orgReducer, if_neg hab, hA, hB, hp, hteams1, hpeople1, htaF, htbX]
  -- lookups in the intermediate state
  have hlookB1 : alookup b teams1 = some tbX := alookup_aset_self _ _ _
  have hlookA1 : alookup a teams1 = some taF := by
    rw [hteams1, alookup_aset_ne a b tbX _ hab, alookup_aset_self]
  have hlookP1 : alookup pid people1 = some { p with teamId := b } := alookup_aset_self _ _ _
  -- the second move undoes the first
  have hfiltB : tbX.personIds.filter (fun id => id != pid) = tb.personIds := by
    rw [htbX]
    simp only [List.filter_append]
    have h1 : tb.personIds.filter (fun id => id != pid) = tb.personIds :=
      List.filter_eq_self.mpr (fun x hx => by
        simp only [bne_iff_ne, ne_eq, decide_eq_true_eq]
        intro he
        exact hnotB (he ▸ hx))
    have h2 : [pid].filter (fun id => id != pid) = [] := by simp
    rw [h1, h2, List.append_nil]
  have hstep2 : orgReducer { s with teams := teams1, people := people1 }
      (OrgAction.movePerson pid b a) =
      Except.ok { s with
        teams := aset a { taF with personIds := taF.personIds ++ [pid] }
          (aset b { tbX with personIds := tbX.personIds.filter (fun id => id != pid) } teams1)
        people := aset pid { p with teamId := a } people1 } := by
    simp only [orgReducer, if_neg hba]
    simp only [hlookA1, hlookB1, hlookP1]
  refine ⟨_, _, hstep1, hstep2, ?_, ?_, ?_⟩
  · -- people restored exactly
    show aset pid { p with teamId := a } people1 = s.people
    rw [hpeople1, aset_aset_same]
    have hpeq : { p with teamId := a } = p := by
      rw [← hpa]
    rw [hpeq]
    exact aset_eq_self_of_mem hp
  · -- team keys unchanged
    have h1 : alookup b teams1 = some tbX := hlookB1
    have hk2 : (aset b { tbX with personIds := tbX.personIds.filter (fun id => id != pid) } teams1).map Prod.fst
        = teams1.map Prod.fst := keys_aset_of_isSome (by rw [h1]; rfl) _
    have hk3 : alookup a (aset b { tbX with personIds := tbX.personIds.filter (fun id => id != pid) } teams1)
        = some taF := by
      rw [alookup_aset_ne a b _ _ hab]
      exact hlookA1
    calc (aset a { taF with personIds := taF.personIds ++ [pid] }
            (aset b { tbX with personIds := tbX.personIds.filter (fun id => id != pid) } teams1)).map Prod.fst
        = (aset b { tbX with personIds := tbX.personIds.filter (fun id => id != pid) } teams1).map Prod.fst :=
          keys_aset_of_isSome (by rw [hk3]; rfl) _
      _ = teams1.map Prod.fst := hk2
      _ = (aset a taF s.teams).map Prod.fst := keys_aset_of_isSome (by
            rw [alookup_aset_ne b a taF _ hba, hB]; rfl) _
      _ = s.teams.map Prod.fst := keys_aset_of_isSome (by rw [hA]; rfl) _
  · -- memberships restored as sets
    intro k t2 hk
    have htbeq : { tbX with personIds := tbX.personIds.filter (fun id => id != pid) } = tb := by
      rw [hfiltB]
    rw [htbeq] at hk
    have hteams1B : aset b tb teams1 = aset a taF s.teams := by
      rw [hteams1, aset_aset_same]
      apply aset_eq_self_of_mem
      rw [alookup_aset_ne b a taF _ hba]
      exact hB
    rw [hteams1B, aset_aset_same] at hk
    by_cases hka : k = a
    · subst hka
      rw [alookup_aset_self] at hk
      have ht2 : t2 = { taF with personIds := taF.personIds ++ [pid] } :=
        (Option.some.inj hk).symm
      refine ⟨ta, hA, ?_⟩
      intro x
      rw [ht2, htaF]
      simp only [List.mem_append, List.mem_filter, List.mem_singleton,
        bne_iff_ne, ne_eq, decide_eq_true_eq]
      constructor
      · rintro (⟨hx, _⟩ | hx)
        · exact hx
        · exact hx ▸ hmemA
      · intro hx
        by_cases hxp : x = pid
        · exact Or.inr hxp
        · exact Or.inl ⟨hx, hxp⟩
    · rw [alookup_aset_ne k a _ _ hka] at hk
      exact ⟨t2, hk, fun x => Iff.rfl⟩

/-- Witness for C8: moving p1 from "executive" to "sales" and back in the
sample document. -/
theorem c8_move_roundtrip_witness :
    alookup "p1" initialOrgState.people ≠ none ∧
      ∃ s1 s2,
        orgReducer initialOrgState (OrgAction.movePerson "p1" "executive" "sales") = Except.ok s1 ∧
        orgReducer s1 (OrgAction.movePerson "p1" "sales" "executive") = Except.ok s2 ∧
        s2.people = initialOrgState.people ∧
        s2.teams.map Prod.fst = initialOrgState.teams.map Prod.fst ∧
        (∀ k t2, alookup k s2.teams = some t2 →
          ∃ t1, alookup k initialOrgState.teams = some t1 ∧
            ∀ x, x ∈ t2.personIds ↔ x ∈ t1.personIds) :=
  ⟨by decide,
    c8_move_roundtrip initialOrgState "p1" "executive" "sales"
      { id := "p1", name := "Sarah Chen", role := "Chief Technology Officer", level := "executive",
        email := some "sarah.chen@cisco.com", avatar := none, tags := ["decision-maker"],
        reportsTo := none, teamId := "executive" }
      { id := "executive", name := "Executive", color := "#1a1a2e", personIds := ["p1"], products := [] }
      { id := "sales", name := "Sales", color := "#2d132c", personIds := ["p11", "p12"], products := [] }
      (by decide) (by decide) (by decide) (by decide) (by decide) (by decide) (by decide)⟩

/-- loadOrgOp never touches the catalog or the stored documents. -/
theorem loadOrgOp_frame (ps : ProviderState) (orgId : String) :
    (loadOrgOp ps orgId).savedOrgs = ps.savedOrgs ∧ (loadOrgOp ps orgId).storage = ps.storage := by
  unfold loadOrgOp
  cases loadFromStorage ps.storage orgId <;> simp

/-- C9: with exactly one saved organization, `deleteOrg` leaves the
catalog, the stored documents and the current-organization pointer
unchanged for any `orgId`; with two or more (at least one record not
named `orgId`), it removes the named catalog record and the stored
document under that id. -/
theorem c9_deleteOrg_guard (ps : ProviderState) (orgId : String) :
    (ps.savedOrgs.length = 1 → deleteOrg ps orgId = Except.ok ps) ∧
    (2 ≤ ps.savedOrgs.length → (∃ o ∈ ps.savedOrgs, o.id ≠ orgId) →
      ∃ ps2, deleteOrg ps orgId = Except.ok ps2 ∧
        ps2.savedOrgs = ps.savedOrgs.filter (fun o => o.id != orgId) ∧
        ps2.storage = adel orgId ps.storage) := by
  constructor
  · intro hlen
    have h1 : ps.savedOrgs.length ≤ 1 := by omega
    simp [deleteOrg, h1]
  · intro hlen hex
    have h1 : ¬ ps.savedOrgs.length ≤ 1 := by omega
    rw [deleteOrg, if_neg h1]
    obtain ⟨o, ho, hone⟩ := hex
    have hmem : o ∈ ps.savedOrgs.filter (fun o => o.id != orgId) :=
      List.mem_filter.mpr ⟨ho, by simpa using hone⟩
    by_cases hc : ps.currentOrgId = orgId
    · rw [if_pos hc]
      have hne : ps.savedOrgs.filter (fun o => o.id != orgId) ≠ [] :=
        List.ne_nil_of_mem hmem
      obtain ⟨o0, rest, hcons⟩ := List.exists_cons_of_ne_nil hne
      simp only [hcons]
      refine ⟨_, rfl, ?_, ?_⟩
      · rw [(loadOrgOp_frame _ _).1]
      · rw [(loadOrgOp_frame _ _).2]
    · rw [if_neg hc]
      exact ⟨_, rfl, rfl, rfl⟩

/-- A two-organization catalog used to witness C9. -/
def twoOrgCatalog : ProviderState :=
  { savedOrgs :=
      [ { id := "default", name := "Cisco (Sample)", createdAt := "t0", updatedAt := "t0" }
      , { id := "org_2", name := "Second", createdAt := "t1", updatedAt := "t1" } ]
    currentOrgId := "default"
    state := initialOrgState
    storage := [("default", initialOrgState), ("org_2", createEmptyOrgState)] }

/-- Witness for C9: deleting the non-current organization from a
two-organization catalog removes exactly its record and document. -/
theorem c9_deleteOrg_guard_witness :
    2 ≤ twoOrgCatalog.savedOrgs.length ∧
      ∃ ps2, deleteOrg twoOrgCatalog "org_2" = Except.ok ps2 ∧
        ps2.savedOrgs = twoOrgCatalog.savedOrgs.filter (fun o => o.id != "org_2") ∧
        ps2.storage = adel "org_2" twoOrgCatalog.storage :=
  ⟨by decide,
    (c9_deleteOrg_guard twoOrgCatalog "org_2").2 (by decide)
      ⟨{ id := "default", name := "Cisco (Sample)", createdAt := "t0", updatedAt := "t0" },
        by decide, by decide⟩⟩

/-! C1: the membership-consistency invariant. -/

/-- Membership consistency as the claim states it: every team's
`personIds` is duplicate-free and contains exactly the ids of the people
whose `teamId` equals the team's id.  Stated over list entries so that it
is decidable on concrete documents. -/
@[reducible] def MemInv (s : OrgState) : Prop :=
  ∀ kt ∈ s.teams,
    kt.2.personIds.Nodup ∧
    (∀ pid ∈ kt.2.personIds, ∃ kp ∈ s.people, kp.2.id = pid ∧ kp.2.teamId = kt.2.id) ∧
    (∀ kp ∈ s.people, kp.2.teamId = kt.2.id → kp.2.id ∈ kt.2.personIds)

/-- Key uniqueness of the two record maps.  JavaScript objects cannot
hold a key twice; every reducer step preserves this. -/
@[reducible] def WfKeys (s : OrgState) : Prop :=
  (s.teams.map Prod.fst).Nodup ∧ (s.people.map Prod.fst).Nodup

/-- Every stored team and person carries its own key as its `id` field
(lookup form). -/
def WfIds (s : OrgState) : Prop :=
  (∀ k t, alookup k s.teams = some t → t.id = k) ∧
  (∀ k p, alookup k s.people = some p → p.id = k)

/-- Every person's `teamId` names an existing team (lookup form). -/
def TeamRefsL (s : OrgState) : Prop :=
  ∀ k p, alookup k s.people = some p → (alookup p.teamId s.teams).isSome

/-- Membership consistency in lookup form, the shape used by the
induction. -/
def MemInvL (s : OrgState) : Prop :=
  ∀ tid t, alookup tid s.teams = some t →
    t.personIds.Nodup ∧
    ∀ pid : String, pid ∈ t.personIds ↔ ∃ q, alookup pid s.people = some q ∧ q.teamId = tid

/-- The inductive invariant: key uniqueness, id/key coherence,
referential integrity of team references, and membership consistency. -/
def OrgInv (s : OrgState) : Prop :=
  WfKeys s ∧ WfIds s ∧ TeamRefsL s ∧ MemInvL s

/-- Lookup through a map that rewrites values but keeps keys. -/
theorem alookup_map_keyfix (f : α → α) (l : JsObj α) (k : String) :
    alookup k (l.map (fun kv => (kv.1, f kv.2))) = (alookup k l).map f := by
  induction l with
  | nil => rfl
  | cons hd tl ih =>
    obtain ⟨k', v'⟩ := hd
    by_cases hk : k' = k <;> simp [alookup, hk, ih]

/-- `aset` preserves presence of any key. -/
theorem alookup_aset_isSome {l : JsObj α} {k : String} (k2 : String) (v : α)
    (h : (alookup k l).isSome) : (alookup k (aset k2 v l)).isSome := by
  by_cases hk : k = k2
  · subst hk
    rw [alookup_aset_self]
    rfl
  · rw [alookup_aset_ne _ _ _ _ hk]
    exact h

/-- `aset` preserves key uniqueness. -/
theorem keys_nodup_aset {l : JsObj α} (hnd : (l.map Prod.fst).Nodup) (k : String) (v : α) :
    ((aset k v l).map Prod.fst).Nodup := by
  cases h : alookup k l with
  | none =>
    rw [keys_aset_of_none h]
    rw [List.nodup_append]
    refine ⟨hnd, List.nodup_singleton k, ?_⟩
    intro x hx hx1
    rcases List.mem_map.mp hx with ⟨kv, hkv, rfl⟩
    rcases List.mem_singleton.mp hx1 with rfl
    exact ((alookup_eq_none_iff _ _).mp h kv hkv) rfl
  | some w =>
    rw [keys_aset_of_isSome (by rw [h]; rfl)]
    exact hnd

/-- Keys of `adel` keep their uniqueness. -/
theorem keys_nodup_adel {l : JsObj α} (hnd : (l.map Prod.fst).Nodup) (k : String) :
    ((adel k l).map Prod.fst).Nodup :=
  ((l.filter_sublist).map Prod.fst).nodup hnd

/-- The claim-level membership consistency follows from the inductive
invariant. -/
theorem meminv_of_inv {s : OrgState} (h : OrgInv s) : MemInv s := by
  obtain ⟨⟨hndT, hndP⟩, ⟨hidT, hidP⟩, _, hmem⟩ := h
  intro kt hkt
  have hlook : alookup kt.1 s.teams = some kt.2 :=
    alookup_eq_some_of_mem hndT (by exact hkt)
  have hteamid : kt.2.id = kt.1 := hidT _ _ hlook
  obtain ⟨hnodup, hiff⟩ := hmem kt.1 kt.2 hlook
  refine ⟨hnodup, ?_, ?_⟩
  · intro pid hpid
    obtain ⟨q, hq, hqt⟩ := (hiff pid).mp hpid
    exact ⟨(pid, q), mem_of_alookup_eq_some hq, hidP _ _ hq, by rw [hqt, hteamid]⟩
  · intro kp hkp hkpt
    have hkpl : alookup kp.1 s.people = some kp.2 :=
      alookup_eq_some_of_mem hndP (by exact hkp)
    have : kp.1 ∈ kt.2.personIds :=
      (hiff kp.1).mpr ⟨kp.2, hkpl, by rw [hkpt, hteamid]⟩
    rwa [hidP _ _ hkpl]

/-- The inductive invariant from facts decidable on a concrete document. -/
theorem inv_of_concrete {s : OrgState}
    (hk : WfKeys s)
    (hidm : (∀ kt ∈ s.teams, kt.2.id = kt.1) ∧ (∀ kp ∈ s.people, kp.2.id = kp.1))
    (href : ∀ kp ∈ s.people, (alookup kp.2.teamId s.teams).isSome)
    (hm : MemInv s) : OrgInv s := by
  have hidT : ∀ k t, alookup k s.teams = some t → t.id = k := fun k t h =>
    hidm.1 (k, t) (mem_of_alookup_eq_some h)
  have hidP : ∀ k p, alookup k s.people = some p → p.id = k := fun k p h =>
    hidm.2 (k, p) (mem_of_alookup_eq_some h)
  refine ⟨hk, ⟨hidT, hidP⟩, ?_, ?_⟩
  · intro k p h
    exact href (k, p) (mem_of_alookup_eq_some h)
  · intro tid t hlook
    have hmem : (tid, t) ∈ s.teams := mem_of_alookup_eq_some hlook
    obtain ⟨hnodup, hfwd, hbwd⟩ := hm (tid, t) hmem
    have htid : t.id = tid := hidm.1 (tid, t) hmem
    refine ⟨hnodup, fun pid => ⟨?_, ?_⟩⟩
    · intro hpid
      obtain ⟨kp, hkp, hkpid, hkpt⟩ := hfwd pid hpid
      have hkey : kp.1 = pid := by rw [← hidm.2 kp hkp, hkpid]
      have : alookup pid s.people = some kp.2 := by
        rw [← hkey]
        exact alookup_eq_some_of_mem hk.2 (by exact hkp)
      exact ⟨kp.2, this, by rw [hkpt, htid]⟩
    · rintro ⟨q, hq, hqt⟩
      have hmemq : (pid, q) ∈ s.people := mem_of_alookup_eq_some hq
      have : q.id ∈ t.personIds := hbwd (pid, q) hmemq (by rw [hqt, htid])
      rwa [hidm.2 (pid, q) hmemq] at this

/-- A people-only update that keeps the person's id and team preserves
the inductive invariant (covers `UPDATE_PERSON` without a team change,
`SET_REPORTS_TO` and `TOGGLE_TAG`). -/
theorem orginv_people_update {s : OrgState} {pid : String} {p q : Person}
    (hinv : OrgInv s) (hp : alookup pid s.people = some p)
    (hqid : q.id = p.id) (hqteam : q.teamId = p.teamId) :
    OrgInv { s with people := aset pid q s.people } := by
  obtain ⟨⟨hndT, hndP⟩, ⟨hidT, hidP⟩, href, hmem⟩ := hinv
  refine ⟨⟨hndT, keys_nodup_aset hndP pid q⟩, ⟨hidT, ?_⟩, ?_, ?_⟩
  · intro k r hr
    by_cases hk : k = pid
    · subst hk
      rw [show ({ s with people := aset k q s.people } : OrgState).people = aset k q s.people from rfl,
        alookup_aset_self] at hr
      obtain rfl := Option.some.inj hr
      rw [hqid, hidP k p hp]
    · rw [show ({ s with people := aset pid q s.people } : OrgState).people = aset pid q s.people from rfl,
        alookup_aset_ne _ _ _ _ hk] at hr
      exact hidP k r hr
  · intro k r hr
    by_cases hk : k = pid
    · subst hk
      rw [show ({ s with people := aset k q s.people } : OrgState).people = aset k q s.people from rfl,
        alookup_aset_self] at hr
      obtain rfl := Option.some.inj hr
      show (alookup q.teamId s.teams).isSome
      rw [hqteam]
      exact href k p hp
    · rw [show ({ s with people := aset pid q s.people } : OrgState).people = aset pid q s.people from rfl,
        alookup_aset_ne _ _ _ _ hk] at hr
      exact href k r hr
  · intro tid t ht
    rw [show ({ s with people := aset pid q s.people } : OrgState).teams = s.teams from rfl] at ht
    obtain ⟨hnd, hiff⟩ := hmem tid t ht
    refine ⟨hnd, fun x => ?_⟩
    show x ∈ t.personIds ↔ ∃ r, alookup x (aset pid q s.people) = some r ∧ r.teamId = tid
    by_cases hx : x = pid
    · subst hx
      rw [alookup_aset_self]
      constructor
      · intro hmemx
        obtain ⟨r, hr, hrt⟩ := (hiff x).mp hmemx
        rw [hp] at hr
        obtain rfl := Option.some.inj hr
        exact ⟨q, rfl, by rw [hqteam, hrt]⟩
      · rintro ⟨r, hr, hrt⟩
        obtain rfl := Option.some.inj hr
        exact (hiff x).mpr ⟨p, hp, by rw [← hqteam, hrt]⟩
    · rw [alookup_aset_ne _ _ _ _ hx]
      exact hiff x

/-- The dual team update of a membership transfer preserves the
inductive invariant (covers `MOVE_PERSON` and `UPDATE_PERSON` with a
team change). -/
theorem orginv_transfer {s : OrgState} {pid fromT toT : String} {p q : Person} {ft tt : Team}
    (hinv : OrgInv s) (hp : alookup pid s.people = some p) (hpt : p.teamId = fromT)
    (hft : alookup fromT s.teams = some ft) (htt : alookup toT s.teams = some tt)
    (hne : fromT ≠ toT) (hqid : q.id = p.id) (hqteam : q.teamId = toT) :
    OrgInv { s with
      teams := aset toT { tt with personIds := tt.personIds ++ [pid] }
        (aset fromT { ft with personIds := ft.personIds.filter (fun id => id != pid) } s.teams)
      people := aset pid q s.people } := by
  obtain ⟨⟨hndT, hndP⟩, ⟨hidT, hidP⟩, href, hmem⟩ := hinv
  have hpid : p.id = pid := hidP pid p hp
  set ftF : Team := { ft with personIds := ft.personIds.filter (fun id => id != pid) } with hftF
  set ttX : Team := { tt with personIds := tt.personIds ++ [pid] } with httX
  set teams2 : JsObj Team := aset toT ttX (aset fromT ftF s.teams) with hteams2
  have hlookTo : alookup toT teams2 = some ttX := alookup_aset_self _ _ _
  have hlookFrom : alookup fromT teams2 = some ftF := by
    rw [hteams2, alookup_aset_ne fromT toT _ _ hne, alookup_aset_self]
  have hlookOther : ∀ tid, tid ≠ toT → tid ≠ fromT → alookup tid teams2 = alookup tid s.teams := by
    intro tid h1 h2
    rw [hteams2, alookup_aset_ne _ _ _ _ h1, alookup_aset_ne _ _ _ _ h2]
  have hndT2 : (teams2.map Prod.fst).Nodup :=
    keys_nodup_aset (keys_nodup_aset hndT fromT ftF) toT ttX
  -- pid is in fromT's old list and not in toT's old list
  obtain ⟨hndFrom, hiffFrom⟩ := hmem fromT ft hft
  obtain ⟨hndTo, hiffTo⟩ := hmem toT tt htt
  have hpidTo : pid ∉ tt.personIds := by
    intro hmemp
    obtain ⟨r, hr, hrt⟩ := (hiffTo pid).mp hmemp
    rw [hp] at hr
    obtain rfl := Option.some.inj hr
    exact hne (by rw [← hpt, hrt])
  refine ⟨⟨hndT2, keys_nodup_aset hndP pid q⟩, ⟨?_, ?_⟩, ?_, ?_⟩
  · -- team ids
    intro k t ht
    by_cases hk : k = toT
    · subst hk
      rw [show ({ s with teams := teams2, people := aset pid q s.people } : OrgState).teams = teams2 from rfl,
        hlookTo] at ht
      obtain rfl := Option.some.inj ht
      exact hidT k tt htt
    · by_cases hk2 : k = fromT
      · subst hk2
        rw [show ({ s with teams := teams2, people := aset pid q s.people } : OrgState).teams = teams2 from rfl,
          hlookFrom] at ht
        obtain rfl := Option.some.inj ht
        exact hidT k ft hft
      · rw [show ({ s with teams := teams2, people := aset pid q s.people } : OrgState).teams = teams2 from rfl,
          hlookOther k hk hk2] at ht
        exact hidT k t ht
  · -- person ids
    intro k r hr
    by_cases hk : k = pid
    · subst hk
      rw [show ({ s with teams := teams2, people := aset k q s.people } : OrgState).people = aset k q s.people from rfl,
        alookup_aset_self] at hr
      obtain rfl := Option.some.inj hr
      rw [hqid, hpid]
    · rw [show ({ s with teams := teams2, people := aset pid q s.people } : OrgState).people = aset pid q s.people from rfl,
        alookup_aset_ne _ _ _ _ hk] at hr
      exact hidP k r hr
  · -- team references
    intro k r hr
    show (alookup r.teamId teams2).isSome
    by_cases hk : k = pid
    · subst hk
      rw [show ({ s with teams := teams2, people := aset k q s.people } : OrgState).people = aset k q s.people from rfl,
        alookup_aset_self] at hr
      obtain rfl := Option.some.inj hr
      rw [hqteam, hlookTo]
      rfl
    · rw [show ({ s with teams := teams2, people := aset pid q s.people } : OrgState).people = aset pid q s.people from rfl,
        alookup_aset_ne _ _ _ _ hk] at hr
      have hold : (alookup r.teamId s.teams).isSome := href k r hr
      rw [hteams2]
      exact alookup_aset_isSome _ _ (alookup_aset_isSome _ _ hold)
  · -- membership consistency
    intro tid t ht
    rw [show ({ s with teams := teams2, people := aset pid q s.people } : OrgState).teams = teams2 from rfl] at ht
    have hpx : ∀ x, x ≠ pid →
        ((∃ r, alookup x (aset pid q s.people) = some r ∧ r.teamId = tid) ↔
          (∃ r, alookup x s.people = some r ∧ r.teamId = tid)) := by
      intro x hx
      rw [alookup_aset_ne _ _ _ _ hx]
    by_cases hk : tid = toT
    · subst hk
      rw [hlookTo] at ht
      obtain rfl := Option.some.inj ht
      refine ⟨?_, fun x => ?_⟩
      · rw [httX]
        simp only [List.nodup_append, List.nodup_singleton]
        exact ⟨hndTo, by trivial, by simpa using hpidTo⟩
      · show x ∈ ttX.personIds ↔ ∃ r, alookup x (aset pid q s.people) = some r ∧ r.teamId = tid
        by_cases hx : x = pid
        · subst hx
          rw [alookup_aset_self]
          constructor
          · intro _
            exact ⟨q, rfl, hqteam⟩
          · intro _
            rw [httX]
            simp
        · rw [hpx x hx]
          rw [httX]
          have hxmem : x ∈ tt.personIds ++ [pid] ↔ x ∈ tt.personIds := by
            simp [hx]
          rw [show ({ tt with personIds := tt.personIds ++ [pid] } : Team).personIds
              = tt.personIds ++ [pid] from rfl, hxmem]
          exact hiffTo x
    · by_cases hk2 : tid = fromT
      · subst hk2
        rw [hlookFrom] at ht
        obtain rfl := Option.some.inj ht
        refine ⟨List.Nodup.filter _ hndFrom, fun x => ?_⟩
        show x ∈ ftF.personIds ↔ ∃ r, alookup x (aset pid q s.people) = some r ∧ r.teamId = tid
        by_cases hx : x = pid
        · subst hx
          rw [alookup_aset_self]
          constructor
          · intro hmemx
            rw [hftF] at hmemx
            simp [List.mem_filter] at hmemx
          · rintro ⟨r, hr, hrt⟩
            obtain rfl := Option.some.inj hr
            exact absurd (by rw [← hrt, hqteam]) hne
        · rw [hpx x hx]
          rw [hftF]
          have hxmem : x ∈ ft.personIds.filter (fun id => id != pid) ↔ x ∈ ft.personIds := by
            simp only [List.mem_filter, bne_iff_ne, ne_eq, decide_eq_true_eq]
            exact ⟨fun h => h.1, fun h => ⟨h, hx⟩⟩
          rw [show ({ ft with personIds := ft.personIds.filter (fun id => id != pid) } : Team).personIds
              = ft.personIds.filter (fun id => id != pid) from rfl, hxmem]
          exact hiffFrom x
      · rw [hlookOther tid hk hk2] at ht
        obtain ⟨hnd, hiff⟩ := hmem tid t ht
        refine ⟨hnd, fun x => ?_⟩
        show x ∈ t.personIds ↔ ∃ r, alookup x (aset pid q s.people) = some r ∧ r.teamId = tid
        by_cases hx : x = pid
        · subst hx
          rw [alookup_aset_self]
          constructor
          · intro hmemx
            obtain ⟨r, hr, hrt⟩ := (hiff x).mp hmemx
            rw [hp] at hr
            obtain rfl := Option.some.inj hr
            exact absurd (by rw [← hpt, hrt]) hk2
          · rintro ⟨r, hr, hrt⟩
            obtain rfl := Option.some.inj hr
            exact absurd (by rw [← hqteam, hrt]) hk
        · rw [hpx x hx]
          exact hiff x

/-- The stated preconditions of the spec's command table (section 4.2).
`addPerson` also carries the table's effect-side assertion that the
generated id is fresh ("assigns a freshly generated unique id"). -/
def PreStated (s : OrgState) : OrgAction → Prop
  | .movePerson personId fromTeam toTeam =>
      (alookup personId s.people).isSome ∧ fromTeam ≠ toTeam
  | .addPerson person genId =>
      (alookup person.teamId s.teams).isSome ∧ alookup genId s.people = none
  | .updatePerson personId _ => (alookup personId s.people).isSome
  | .deletePerson personId => (alookup personId s.people).isSome
  | .setReportsTo personId _ => (alookup personId s.people).isSome
  | .toggleTag personId _ => (alookup personId s.people).isSome
  | .renameTeam teamId _ => (alookup teamId s.teams).isSome
  | .addTeam team => alookup team.id s.teams = none
  | .deleteTeam teamId => ∃ t, alookup teamId s.teams = some t ∧ t.personIds = []
  | .toggleTeamProduct teamId _ => (alookup teamId s.teams).isSome
  | .toggleOrgProduct _ => True
  | .loadOrg _ => True
  | .clearOrg => True

/-- The amended preconditions: as stated, except that `movePerson`
additionally requires `fromTeam` to be the person's current team,
`updatePerson` requires a carried `teamId` to be non-empty, `addTeam`
requires the inserted team to have empty membership (the table's stated
effect), and `loadOrg` requires the loaded document to satisfy the
inductive invariant. -/
def PreAmended (s : OrgState) : OrgAction → Prop
  | .movePerson personId fromTeam toTeam =>
      (∃ p, alookup personId s.people = some p ∧ p.teamId = fromTeam) ∧ fromTeam ≠ toTeam
  | .addPerson person genId =>
      (alookup person.teamId s.teams).isSome ∧ alookup genId s.people = none
  | .updatePerson personId updates =>
      (alookup personId s.people).isSome ∧ ∀ t, updates.teamId = some t → t ≠ ""
  | .deletePerson personId => (alookup personId s.people).isSome
  | .setReportsTo personId _ => (alookup personId s.people).isSome
  | .toggleTag personId _ => (alookup personId s.people).isSome
  | .renameTeam teamId _ => (alookup teamId s.teams).isSome
  | .addTeam team => alookup team.id s.teams = none ∧ team.personIds = []
  | .deleteTeam teamId => ∃ t, alookup teamId s.teams = some t ∧ t.personIds = []
  | .toggleTeamProduct teamId _ => (alookup teamId s.teams).isSome
  | .toggleOrgProduct _ => True
  | .loadOrg st => OrgInv st
  | .clearOrg => True

/-- Documents reachable from an initial document (empty or
sample-seeded) by reducer steps whose preconditions (per `pre`) hold. -/
inductive Reach (pre : OrgState → OrgAction → Prop) : OrgState → Prop where
  | empty : Reach pre createEmptyOrgState
  | sample : Reach pre initialOrgState
  | step {s : OrgState} {a : OrgAction} {s2 : OrgState} :
      Reach pre s → pre s a → orgReducer s a = Except.ok s2 → Reach pre s2

/-- The empty document satisfies the inductive invariant. -/
theorem orginv_empty : OrgInv createEmptyOrgState :=
  inv_of_concrete (by decide) (by decide) (by decide) (by decide)

/-- The sample document satisfies the inductive invariant. -/
theorem orginv_sample : OrgInv initialOrgState :=
  inv_of_concrete (by decide) (by decide) (by decide) (by decide)

/-- Keys survive a value-only map. -/
theorem keys_map_keyfix (f : α → α) (l : JsObj α) :
    (l.map (fun kv => (kv.1, f kv.2))).map Prod.fst = l.map Prod.fst := by
  rw [List.map_map]
  apply List.map_congr_left
  intro kv _
  rfl

/-- A team-value update at an existing key that keeps the team's id and
membership list preserves the inductive invariant (covers `RENAME_TEAM`
and `TOGGLE_TEAM_PRODUCT`). -/
theorem orginv_team_value_update {s : OrgState} {tid : String} {t t2 : Team}
    (hinv : OrgInv s) (ht : alookup tid s.teams = some t)
    (hid : t2.id = t.id) (hpids : t2.personIds = t.personIds) :
    OrgInv { s with teams := aset tid t2 s.teams } := by
  obtain ⟨⟨hndT, hndP⟩, ⟨hidT, hidP⟩, href, hmem⟩ := hinv
  refine ⟨⟨keys_nodup_aset hndT tid t2, hndP⟩, ⟨?_, hidP⟩, ?_, ?_⟩
  · intro k r hr
    by_cases hk : k = tid
    · subst hk
      rw [show ({ s with teams := aset k t2 s.teams } : OrgState).teams = aset k t2 s.teams from rfl,
        alookup_aset_self] at hr
      obtain rfl := Option.some.inj hr
      rw [hid]
      exact hidT k t ht
    · rw [show ({ s with teams := aset tid t2 s.teams } : OrgState).teams = aset tid t2 s.teams from rfl,
        alookup_aset_ne _ _ _ _ hk] at hr
      exact hidT k r hr
  · intro k r hr
    exact alookup_aset_isSome _ _ (href k r hr)
  · intro tid2 r hr
    rw [show ({ s with teams := aset tid t2 s.teams } : OrgState).teams = aset tid t2 s.teams from rfl] at hr
    by_cases hk : tid2 = tid
    · subst hk
      rw [alookup_aset_self] at hr
      obtain rfl := Option.some.inj hr
      obtain ⟨hnd, hiff⟩ := hmem tid2 t ht
      rw [hpids]
      exact ⟨hnd, hiff⟩
    · rw [alookup_aset_ne _ _ _ _ hk] at hr
      exact hmem tid2 r hr

/-- The body of the `DELETE_PERSON` forEach: clear a `reportsTo`
reference pointing at the deleted id. -/
def clearReportsTo (personId : String) (v : Person) : Person :=
  if v.reportsTo = some personId then { v with reportsTo := none } else v

theorem clearReportsTo_id (personId : String) (v : Person) :
    (clearReportsTo personId v).id = v.id := by
  unfold clearReportsTo
  by_cases hc : v.reportsTo = some personId <;> simp [hc]

theorem clearReportsTo_teamId (personId : String) (v : Person) :
    (clearReportsTo personId v).teamId = v.teamId := by
  unfold clearReportsTo
  by_cases hc : v.reportsTo = some personId <;> simp [hc]


/-- `ADD_PERSON` with an existing target team and a fresh generated id
preserves the inductive invariant. -/
theorem orginv_addPerson {s : OrgState} {d : PersonData} {gid : String} {t : Team}
    (hinv : OrgInv s) (ht : alookup d.teamId s.teams = some t)
    (hfresh : alookup gid s.people = none) :
    OrgInv { s with
      teams := aset d.teamId { t with personIds := t.personIds ++ [gid] } s.teams
      people := aset gid (personOf d gid) s.people } := by
  obtain ⟨⟨hndT, hndP⟩, ⟨hidT, hidP⟩, href, hmem⟩ := hinv
  set newP : Person := personOf d gid with hnewP
  set ttX : Team := { t with personIds := t.personIds ++ [gid] } with httX
  refine ⟨⟨keys_nodup_aset hndT _ _, keys_nodup_aset hndP _ _⟩, ⟨?_, ?_⟩, ?_, ?_⟩
  · intro k r hr
    rw [show ({ s with teams := aset d.teamId ttX s.teams, people := aset gid newP s.people } : OrgState).teams
        = aset d.teamId ttX s.teams from rfl] at hr
    by_cases hk : k = d.teamId
    · rw [hk, alookup_aset_self] at hr
      obtain rfl := Option.some.inj hr
      rw [hk]
      exact hidT d.teamId t ht
    · rw [alookup_aset_ne _ _ _ _ hk] at hr
      exact hidT k r hr
  · intro k r hr
    rw [show ({ s with teams := aset d.teamId ttX s.teams, people := aset gid newP s.people } : OrgState).people
        = aset gid newP s.people from rfl] at hr
    by_cases hk : k = gid
    · rw [hk, alookup_aset_self] at hr
      obtain rfl := Option.some.inj hr
      rw [hk]
      rfl
    · rw [alookup_aset_ne _ _ _ _ hk] at hr
      exact hidP k r hr
  · intro k r hr
    rw [show ({ s with teams := aset d.teamId ttX s.teams, people := aset gid newP s.people } : OrgState).people
        = aset gid newP s.people from rfl] at hr
    show (alookup r.teamId (aset d.teamId ttX s.teams)).isSome
    by_cases hk : k = gid
    · rw [hk, alookup_aset_self] at hr
      obtain rfl := Option.some.inj hr
      show (alookup d.teamId (aset d.teamId ttX s.teams)).isSome
      rw [alookup_aset_self]
      rfl
    · rw [alookup_aset_ne _ _ _ _ hk] at hr
      exact alookup_aset_isSome _ _ (href k r hr)
  · intro tid t2 ht2
    rw [show ({ s with teams := aset d.teamId ttX s.teams, people := aset gid newP s.people } : OrgState).teams
        = aset d.teamId ttX s.teams from rfl] at ht2
    by_cases hk : tid = d.teamId
    · rw [hk, alookup_aset_self] at ht2
      obtain rfl := Option.some.inj ht2
      obtain ⟨hnd, hiff⟩ := hmem d.teamId t ht
      have hgid : gid ∉ t.personIds := by
        intro hg
        obtain ⟨q, hq, _⟩ := (hiff gid).mp hg
        rw [hfresh] at hq
        cases hq
      constructor
      · rw [httX]
        simp only [List.nodup_append, List.nodup_singleton]
        exact ⟨hnd, by trivial, by simpa using hgid⟩
      · intro x
        show x ∈ ttX.personIds ↔ ∃ r, alookup x (aset gid newP s.people) = some r ∧ r.teamId = tid
        by_cases hx : x = gid
        · rw [hx, alookup_aset_self]
          constructor
          · intro _
            exact ⟨newP, rfl, by rw [hk]; rfl⟩
          · intro _
            rw [httX]
            simp
        · rw [alookup_aset_ne _ _ _ _ hx, httX]
          rw [show ({ t with personIds := t.personIds ++ [gid] } : Team).personIds
              = t.personIds ++ [gid] from rfl]
          rw [show x ∈ t.personIds ++ [gid] ↔ x ∈ t.personIds from by simp [hx]]
          rw [hk]
          exact hiff x
    · rw [alookup_aset_ne _ _ _ _ hk] at ht2
      obtain ⟨hnd, hiff⟩ := hmem tid t2 ht2
      refine ⟨hnd, fun x => ?_⟩
      show x ∈ t2.personIds ↔ ∃ r, alookup x (aset gid newP s.people) = some r ∧ r.teamId = tid
      by_cases hx : x = gid
      · rw [hx, alookup_aset_self]
        constructor
        · intro hg
          obtain ⟨q, hq, _⟩ := (hiff x).mp (hx ▸ hg)
          rw [hx, hfresh] at hq
          cases hq
        · rintro ⟨r, hr, hrt⟩
          obtain rfl := Option.some.inj hr
          exact absurd (by rw [← hrt]; rfl) hk
      · rw [alookup_aset_ne _ _ _ _ hx]
        exact hiff x

/-- `DELETE_PERSON` of an existing person whose team exists preserves
the inductive invariant. -/
theorem orginv_deletePerson {s : OrgState} {pid : String} {p : Person} {t : Team}
    (hinv : OrgInv s) (hp : alookup pid s.people = some p)
    (ht : alookup p.teamId s.teams = some t) :
    OrgInv { s with
      teams := aset p.teamId { t with personIds := t.personIds.filter (fun id => id != pid) } s.teams
      people := (adel pid s.people).map (fun kv =>
        if kv.2.reportsTo = some pid then (kv.1, { kv.2 with reportsTo := none }) else kv) } := by
  obtain ⟨⟨hndT, hndP⟩, ⟨hidT, hidP⟩, href, hmem⟩ := hinv
  set tF : Team := { t with personIds := t.personIds.filter (fun id => id != pid) } with htF
  set people2 : JsObj Person := (adel pid s.people).map (fun kv =>
    if kv.2.reportsTo = some pid then (kv.1, { kv.2 with reportsTo := none }) else kv) with hpeople2
  have hmapeq : people2 = (adel pid s.people).map (fun kv => (kv.1, clearReportsTo pid kv.2)) := by
    rw [hpeople2]
    apply List.map_congr_left
    intro kv _
    unfold clearReportsTo
    by_cases hc : kv.2.reportsTo = some pid <;> simp [hc]
  have hlookP2 : ∀ x, alookup x people2 = (alookup x (adel pid s.people)).map (clearReportsTo pid) := by
    intro x
    rw [hmapeq, alookup_map_keyfix]
  have hlookPmain : ∀ x, x ≠ pid →
      alookup x people2 = (alookup x s.people).map (clearReportsTo pid) := by
    intro x hx
    rw [hlookP2, alookup_adel_ne _ _ _ hx]
  have hlookPpid : alookup pid people2 = none := by
    rw [hlookP2, alookup_adel_self]
    rfl
  have hndP2 : (people2.map Prod.fst).Nodup := by
    rw [hmapeq, keys_map_keyfix]
    exact keys_nodup_adel hndP pid
  have hRHS : ∀ x, x ≠ pid → ∀ tid2 : String,
      ((∃ r, alookup x people2 = some r ∧ r.teamId = tid2) ↔
        (∃ r, alookup x s.people = some r ∧ r.teamId = tid2)) := by
    intro x hx tid2
    rw [hlookPmain x hx]
    cases hq : alookup x s.people with
    | none => simp
    | some q =>
      simp only [Option.map_some']
      constructor
      · rintro ⟨r, hr, hrt⟩
        obtain rfl := Option.some.inj hr
        rw [clearReportsTo_teamId] at hrt
        exact ⟨q, rfl, hrt⟩
      · rintro ⟨r, hr, hrt⟩
        obtain rfl := Option.some.inj hr
        exact ⟨clearReportsTo pid q, rfl, by rw [clearReportsTo_teamId]; exact hrt⟩
  refine ⟨⟨keys_nodup_aset hndT _ _, hndP2⟩, ⟨?_, ?_⟩, ?_, ?_⟩
  · intro k r hr
    rw [show ({ s with teams := aset p.teamId tF s.teams, people := people2 } : OrgState).teams
        = aset p.teamId tF s.teams from rfl] at hr
    by_cases hk : k = p.teamId
    · rw [hk, alookup_aset_self] at hr
      obtain rfl := Option.some.inj hr
      rw [hk]
      exact hidT p.teamId t ht
    · rw [alookup_aset_ne _ _ _ _ hk] at hr
      exact hidT k r hr
  · intro k r hr
    rw [show ({ s with teams := aset p.teamId tF s.teams, people := people2 } : OrgState).people
        = people2 from rfl] at hr
    by_cases hk : k = pid
    · rw [hk, hlookPpid] at hr
      cases hr
    · rw [hlookPmain k hk] at hr
      cases hq : alookup k s.people with
      | none =>
        rw [hq] at hr
        cases hr
      | some q =>
        rw [hq] at hr
        simp only [Option.map_some'] at hr
        obtain rfl := Option.some.inj hr
        rw [clearReportsTo_id]
        exact hidP k q hq
  · intro k r hr
    rw [show ({ s with teams := aset p.teamId tF s.teams, people := people2 } : OrgState).people
        = people2 from rfl] at hr
    show (alookup r.teamId (aset p.teamId tF s.teams)).isSome
    by_cases hk : k = pid
    · rw [hk, hlookPpid] at hr
      cases hr
    · rw [hlookPmain k hk] at hr
      cases hq : alookup k s.people with
      | none =>
        rw [hq] at hr
        cases hr
      | some q =>
        rw [hq] at hr
        simp only [Option.map_some'] at hr
        obtain rfl := Option.some.inj hr
        rw [clearReportsTo_teamId]
        exact alookup_aset_isSome _ _ (href k q hq)
  · intro tid t2 ht2
    rw [show ({ s with teams := aset p.teamId tF s.teams, people := people2 } : OrgState).teams
        = aset p.teamId tF s.teams from rfl] at ht2
    by_cases hk : tid = p.teamId
    · rw [hk, alookup_aset_self] at ht2
      obtain rfl := Option.some.inj ht2
      obtain ⟨hnd, hiff⟩ := hmem p.teamId t ht
      refine ⟨List.Nodup.filter _ hnd, fun x => ?_⟩
      show x ∈ tF.personIds ↔ ∃ r, alookup x people2 = some r ∧ r.teamId = tid
      by_cases hx : x = pid
      · rw [hx]
        constructor
        · intro hmemx
          rw [htF] at hmemx
          simp [List.mem_filter] at hmemx
        · rintro ⟨r, hr, _⟩
          rw [hlookPpid] at hr
          cases hr
      · rw [hRHS x hx tid, htF]
        rw [show ({ t with personIds := t.personIds.filter (fun id => id != pid) } : Team).personIds
            = t.personIds.filter (fun id => id != pid) from rfl]
        rw [show x ∈ t.personIds.filter (fun id => id != pid) ↔ x ∈ t.personIds from by
          simp only [List.mem_filter, bne_iff_ne, ne_eq, decide_eq_true_eq]
          exact ⟨fun h => h.1, fun h => ⟨h, hx⟩⟩]
        rw [hk]
        exact hiff x
    · rw [alookup_aset_ne _ _ _ _ hk] at ht2
      obtain ⟨hnd, hiff⟩ := hmem tid t2 ht2
      refine ⟨hnd, fun x => ?_⟩
      show x ∈ t2.personIds ↔ ∃ r, alookup x people2 = some r ∧ r.teamId = tid
      by_cases hx : x = pid
      · constructor
        · intro hmemx
          obtain ⟨q, hq, hqt⟩ := (hiff x).mp hmemx
          rw [hx, hp] at hq
          obtain rfl := Option.some.inj hq
          exact absurd hqt.symm hk
        · rintro ⟨r, hr, _⟩
          rw [hx, hlookPpid] at hr
          cases hr
      · rw [hRHS x hx tid]
        exact hiff x

/-- `ADD_TEAM` with an unused id and empty membership preserves the
inductive invariant. -/
theorem orginv_addTeam {s : OrgState} {team : Team}
    (hinv : OrgInv s) (hnone : alookup team.id s.teams = none)
    (hempty : team.personIds = []) :
    OrgInv { s with teams := aset team.id team s.teams } := by
  obtain ⟨⟨hndT, hndP⟩, ⟨hidT, hidP⟩, href, hmem⟩ := hinv
  refine ⟨⟨keys_nodup_aset hndT _ _, hndP⟩, ⟨?_, hidP⟩, ?_, ?_⟩
  · intro k r hr
    rw [show ({ s with teams := aset team.id team s.teams } : OrgState).teams
        = aset team.id team s.teams from rfl] at hr
    by_cases hk : k = team.id
    · rw [hk, alookup_aset_self] at hr
      obtain rfl := Option.some.inj hr
      rw [hk]
    · rw [alookup_aset_ne _ _ _ _ hk] at hr
      exact hidT k r hr
  · intro k r hr
    exact alookup_aset_isSome _ _ (href k r hr)
  · intro tid t2 ht2
    rw [show ({ s with teams := aset team.id team s.teams } : OrgState).teams
        = aset team.id team s.teams from rfl] at ht2
    by_cases hk : tid = team.id
    · rw [hk, alookup_aset_self] at ht2
      obtain rfl := Option.some.inj ht2
      rw [hempty]
      refine ⟨List.nodup_nil, fun x => ?_⟩
      constructor
      · intro hx
        cases hx
      · rintro ⟨q, hq, hqt⟩
        have hs : (alookup q.teamId s.teams).isSome := href x q hq
        rw [hqt, hk, hnone] at hs
        cases hs
    · rw [alookup_aset_ne _ _ _ _ hk] at ht2
      exact hmem tid t2 ht2

/-- `DELETE_TEAM` of an existing team with empty membership preserves
the inductive invariant. -/
theorem orginv_deleteTeam {s : OrgState} {tid : String} {t : Team}
    (hinv : OrgInv s) (ht : alookup tid s.teams = some t)
    (hempty : t.personIds = []) :
    OrgInv { s with teams := adel tid s.teams } := by
  obtain ⟨⟨hndT, hndP⟩, ⟨hidT, hidP⟩, href, hmem⟩ := hinv
  have hnoperson : ∀ k q, alookup k s.people = some q → q.teamId ≠ tid := by
    intro k q hq hqt
    obtain ⟨_, hiff⟩ := hmem tid t ht
    have hk : k ∈ t.personIds := (hiff k).mpr ⟨q, hq, hqt⟩
    rw [hempty] at hk
    cases hk
  refine ⟨⟨keys_nodup_adel hndT tid, hndP⟩, ⟨?_, hidP⟩, ?_, ?_⟩
  · intro k r hr
    rw [show ({ s with teams := adel tid s.teams } : OrgState).teams = adel tid s.teams from rfl] at hr
    by_cases hk : k = tid
    · rw [hk, alookup_adel_self] at hr
      cases hr
    · rw [alookup_adel_ne _ _ _ hk] at hr
      exact hidT k r hr
  · intro k r hr
    show (alookup r.teamId (adel tid s.teams)).isSome
    rw [alookup_adel_ne _ _ _ (hnoperson k r hr)]
    exact href k r hr
  · intro tid2 t2 ht2
    rw [show ({ s with teams := adel tid s.teams } : OrgState).teams = adel tid s.teams from rfl] at ht2
    by_cases hk : tid2 = tid
    · rw [hk, alookup_adel_self] at ht2
      cases ht2
    · rw [alookup_adel_ne _ _ _ hk] at ht2
      exact hmem tid2 t2 ht2

/-- The cascading branch of `TOGGLE_ORG_PRODUCT` preserves the
inductive invariant (it touches only each team's products list). -/
theorem orginv_toggleOrgCascade {s : OrgState} (prod : String) (newOrgProducts : List String)
    (hinv : OrgInv s) :
    OrgInv { s with
      orgProducts := newOrgProducts
      teams := s.teams.map (fun kv =>
        if prod ∈ kv.2.products then
          (kv.1, { kv.2 with products := kv.2.products.filter (fun p => p != prod) })
        else kv) } := by
  obtain ⟨⟨hndT, hndP⟩, ⟨hidT, hidP⟩, href, hmem⟩ := hinv
  set prodFix : Team → Team := fun v =>
    if prod ∈ v.products then { v with products := v.products.filter (fun p => p != prod) } else v
    with hprodFix
  set teams2 : JsObj Team := s.teams.map (fun kv =>
    if prod ∈ kv.2.products then
      (kv.1, { kv.2 with products := kv.2.products.filter (fun p => p != prod) })
    else kv) with hteams2
  have hmapeq : teams2 = s.teams.map (fun kv => (kv.1, prodFix kv.2)) := by
    rw [hteams2]
    apply List.map_congr_left
    intro kv _
    rw [hprodFix]
    by_cases hcp : prod ∈ kv.2.products <;> simp [hcp]
  have hlook2 : ∀ k, alookup k teams2 = (alookup k s.teams).map prodFix := by
    intro k
    rw [hmapeq, alookup_map_keyfix]
  have hfixid : ∀ v : Team, (prodFix v).id = v.id := by
    intro v
    rw [hprodFix]
    by_cases hcp : prod ∈ v.products <;> simp [hcp]
  have hfixpids : ∀ v : Team, (prodFix v).personIds = v.personIds := by
    intro v
    rw [hprodFix]
    by_cases hcp : prod ∈ v.products <;> simp [hcp]
  refine ⟨⟨?_, hndP⟩, ⟨?_, hidP⟩, ?_, ?_⟩
  · rw [show ({ s with orgProducts := newOrgProducts, teams := teams2 } : OrgState).teams
        = teams2 from rfl, hmapeq, keys_map_keyfix]
    exact hndT
  · intro k r hr
    rw [show ({ s with orgProducts := newOrgProducts, teams := teams2 } : OrgState).teams
        = teams2 from rfl, hlook2 k] at hr
    cases hq : alookup k s.teams with
    | none =>
      rw [hq] at hr
      cases hr
    | some q =>
      rw [hq] at hr
      simp only [Option.map_some'] at hr
      obtain rfl := Option.some.inj hr
      rw [hfixid]
      exact hidT k q hq
  · intro k r hr
    have hold := href k r hr
    show (alookup r.teamId teams2).isSome
    rw [hlook2]
    cases hq : alookup r.teamId s.teams with
    | none =>
      rw [hq] at hold
      cases hold
    | some q => rfl
  · intro tid t2 ht2
    rw [show ({ s with orgProducts := newOrgProducts, teams := teams2 } : OrgState).teams
        = teams2 from rfl, hlook2 tid] at ht2
    cases hq : alookup tid s.teams with
    | none =>
      rw [hq] at ht2
      cases ht2
    | some q =>
      rw [hq] at ht2
      simp only [Option.map_some'] at ht2
      obtain rfl := Option.some.inj ht2
      obtain ⟨hnd, hiff⟩ := hmem tid q hq
      rw [hfixpids]
      exact ⟨hnd, hiff⟩

/-- Every reducer step whose amended precondition holds preserves the
inductive invariant. -/
theorem orginv_step {s s2 : OrgState} {a : OrgAction}
    (hinv : OrgInv s) (hpre : PreAmended s a) (hstep : orgReducer s a = Except.ok s2) :
    OrgInv s2 := by
  cases a with
  | movePerson pid fromT toT =>
    obtain ⟨⟨p, hp, hpt⟩, hne⟩ := hpre
    simp only [orgReducer] at hstep
    rw [if_neg hne] at hstep
    cases hft : alookup fromT s.teams with
    | none =>
      rw [hft] at hstep
      simp at hstep
    | some ft =>
      rw [hft] at hstep
      cases htt : alookup toT s.teams with
      | none =>
        rw [htt] at hstep
        simp at hstep
      | some tt =>
        rw [htt, hp] at hstep
        simp only [Except.ok.injEq] at hstep
        subst hstep
        exact orginv_transfer hinv hp hpt hft htt hne rfl rfl
  | addPerson d gid =>
    obtain ⟨hteam, hfresh⟩ := hpre
    obtain ⟨t, ht⟩ := Option.isSome_iff_exists.mp hteam
    simp only [orgReducer, ht] at hstep
    simp only [Except.ok.injEq] at hstep
    subst hstep
    exact orginv_addPerson hinv ht hfresh
  | updatePerson pid u =>
    obtain ⟨hps, hemp⟩ := hpre
    obtain ⟨p, hp⟩ := Option.isSome_iff_exists.mp hps
    simp only [orgReducer, hp] at hstep
    cases hu : u.teamId with
    | none =>
      simp only [hu] at hstep
      simp only [Except.ok.injEq] at hstep
      subst hstep
      exact orginv_people_update hinv hp rfl (by simp [mergePerson, hu])
    | some newTid =>
      simp only [hu] at hstep
      by_cases hcond : newTid ≠ "" ∧ newTid ≠ p.teamId
      · rw [if_pos hcond] at hstep
        cases hot : alookup p.teamId s.teams with
        | none =>
          rw [hot] at hstep
          simp at hstep
        | some oldT =>
          rw [hot] at hstep
          cases hnt : alookup newTid s.teams with
          | none =>
            rw [hnt] at hstep
            simp at hstep
          | some newT =>
            rw [hnt] at hstep
            simp only [Except.ok.injEq] at hstep
            subst hstep
            exact orginv_transfer hinv hp rfl hot hnt (Ne.symm hcond.2) rfl
              (by simp [mergePerson, hu])
      · rw [if_neg hcond] at hstep
        simp only [Except.ok.injEq] at hstep
        subst hstep
        have hteq : newTid = p.teamId := by
          rcases not_and_or.mp hcond with h | h
          · exact absurd (hemp newTid hu) (by simpa using h)
          · exact not_not.mp h
        exact orginv_people_update hinv hp rfl (by simp [mergePerson, hu, hteq])
  | deletePerson pid =>
    obtain ⟨p, hp⟩ := Option.isSome_iff_exists.mp hpre
    simp only [orgReducer, hp] at hstep
    cases ht : alookup p.teamId s.teams with
    | none =>
      rw [ht] at hstep
      simp at hstep
    | some t =>
      rw [ht] at hstep
      simp only [Except.ok.injEq] at hstep
      subst hstep
      exact orginv_deletePerson hinv hp ht
  | setReportsTo pid mid =>
    obtain ⟨p, hp⟩ := Option.isSome_iff_exists.mp hpre
    simp only [orgReducer, hp] at hstep
    simp only [Except.ok.injEq] at hstep
    subst hstep
    exact orginv_people_update hinv hp rfl rfl
  | toggleTag pid tg =>
    cases hp : alookup pid s.people with
    | none =>
      simp only [orgReducer, hp] at hstep
      simp only [Except.ok.injEq] at hstep
      subst hstep
      exact hinv
    | some person =>
      simp only [orgReducer, hp] at hstep
      simp only [Except.ok.injEq] at hstep
      subst hstep
      exact orginv_people_update hinv hp rfl rfl
  | renameTeam tid nm =>
    obtain ⟨t, ht⟩ := Option.isSome_iff_exists.mp hpre
    simp only [orgReducer, ht] at hstep
    simp only [Except.ok.injEq] at hstep
    subst hstep
    exact orginv_team_value_update hinv ht rfl rfl
  | addTeam team =>
    obtain ⟨hnone, hempty⟩ := hpre
    simp only [orgReducer] at hstep
    simp only [Except.ok.injEq] at hstep
    subst hstep
    exact orginv_addTeam hinv hnone hempty
  | deleteTeam tid =>
    obtain ⟨t, ht, hempty⟩ := hpre
    simp only [orgReducer, ht] at hstep
    rw [hempty] at hstep
    simp only [List.length_nil, gt_iff_lt, lt_self_iff_false, if_false] at hstep
    simp only [Except.ok.injEq] at hstep
    subst hstep
    exact orginv_deleteTeam hinv ht hempty
  | toggleTeamProduct tid prod =>
    cases ht : alookup tid s.teams with
    | none =>
      simp only [orgReducer, ht] at hstep
      simp only [Except.ok.injEq] at hstep
      subst hstep
      exact hinv
    | some team =>
      simp only [orgReducer, ht] at hstep
      by_cases hc : prod ∉ s.orgProducts ∧ prod ∉ team.products
      · rw [if_pos hc] at hstep
        simp only [Except.ok.injEq] at hstep
        subst hstep
        exact hinv
      · rw [if_neg hc] at hstep
        simp only [Except.ok.injEq] at hstep
        subst hstep
        exact orginv_team_value_update hinv ht rfl rfl
  | toggleOrgProduct prod =>
    simp only [orgReducer] at hstep
    by_cases hc : prod ∉ (if prod ∈ s.orgProducts then s.orgProducts.filter (fun p => p != prod)
        else s.orgProducts ++ [prod])
    · rw [if_pos hc] at hstep
      simp only [Except.ok.injEq] at hstep
      subst hstep
      exact orginv_toggleOrgCascade prod _ hinv
    · rw [if_neg hc] at hstep
      simp only [Except.ok.injEq] at hstep
      subst hstep
      exact hinv
  | loadOrg st =>
    simp only [orgReducer] at hstep
    simp only [Except.ok.injEq] at hstep
    subst hstep
    exact hpre
  | clearOrg =>
    simp only [orgReducer] at hstep
    simp only [Except.ok.injEq] at hstep
    subst hstep
    exact orginv_empty

/-- Reachability under the amended preconditions implies the inductive
invariant. -/
theorem reach_orginv {s : OrgState} (h : Reach PreAmended s) : OrgInv s := by
  induction h with
  | empty => exact orginv_empty
  | sample => exact orginv_sample
  | step _ hpre hstep ih => exact orginv_step ih hpre hstep

/-- C1 (amended): for every document reachable from an initial document
by reducer steps whose amended preconditions hold (stated preconditions,
strengthened so that `movePerson`'s `fromTeam` is the person's current
team, an update's carried `teamId` is non-empty, an added team has empty
membership, and a loaded document itself satisfies the invariant), every
team's `personIds` is duplicate-free and contains exactly the ids of the
people whose `teamId` equals the team's id. -/
theorem c1_membership_invariant (s : OrgState) (h : Reach PreAmended s) : MemInv s :=
  meminv_of_inv (reach_orginv h)

/-- Witness for the amended C1 at the sample document. -/
theorem c1_membership_invariant_witness : MemInv initialOrgState :=
  c1_membership_invariant initialOrgState Reach.sample

/-- The document produced by `MOVE_PERSON p1 product sales` on the
sample document: the stated precondition (person exists, the two teams
differ) holds, but p1's team is "executive", not "product". -/
def c1CexState : OrgState :=
  match orgReducer initialOrgState (OrgAction.movePerson "p1" "product" "sales") with
  | .ok s => s
  | .error _ => createEmptyOrgState

/-- C1 counterexample: under the preconditions as stated in the spec's
command table, membership consistency is not an invariant.  Moving p1
"from" team product (which is not p1's team) to sales satisfies the
stated precondition yet leaves p1 in executive's member list while
`p1.teamId = "sales"`. -/
theorem c1_counterexample_move_wrong_fromTeam :
    ¬ (∀ s, Reach PreStated s → MemInv s) := by
  intro h
  have hpre : PreStated initialOrgState (OrgAction.movePerson "p1" "product" "sales") := by
    constructor
    · decide
    · decide
  have hstep : orgReducer initialOrgState (OrgAction.movePerson "p1" "product" "sales") =
      Except.ok c1CexState := by rfl
  have hreach : Reach PreStated c1CexState := Reach.step Reach.sample hpre hstep
  exact absurd (h c1CexState hreach) (by decide)

/-! Transfer codec: a model of the JSON fragment this app serializes.
An `OrgState` serializes to strings, arrays and objects only (no
numbers, booleans or nulls appear in the document shape), so the JSON
model is restricted to that fragment. -/

/-- JSON values of the document grammar. -/
inductive Json where
  | str : String → Json
  | arr : List Json → Json
  | obj : List (String × Json) → Json

/-- Lowercase hex digit, as produced by the `\u00XX` escapes of
`JSON.stringify`. -/
def hexDigit (n : Nat) : Char :=
  "0123456789abcdef".toList.getD n '0'

/-- The escape of one character inside a JSON string, as performed by
`JSON.stringify`: quote, backslash and the named control escapes, then
`\u00XX` for the remaining control characters, everything else
literal. -/
def escapeChar (c : Char) : List Char :=
  if c = '"' then ['\\', '"']
  else if c = '\\' then ['\\', '\\']
  else if c = '\x08' then ['\\', 'b']
  else if c = '\x09' then ['\\', 't']
  else if c = '\x0a' then ['\\', 'n']
  else if c = '\x0c' then ['\\', 'f']
  else if c = '\x0d' then ['\\', 'r']
  else if c.toNat < 0x20 then
    ['\\', 'u', '0', '0', hexDigit (c.toNat / 16), hexDigit (c.toNat % 16)]
  else [c]

/-- A JSON string literal: quote, escaped characters, quote. -/
def printString (s : String) : List Char :=
  '"' :: s.toList.flatMap escapeChar ++ ['"']

/-- The separator `JSON.stringify` emits before an item: nothing in
compact mode, newline plus indentation with a gap. -/
def jsep (gap : Option Nat) (ind : Nat) : List Char :=
  match gap with
  | none => []
  | some g => '\n' :: List.replicate (g * ind) ' '

/-- The key-value separator: `:` compact, `: ` with a gap. -/
def jcolon (gap : Option Nat) : List Char :=
  match gap with
  | none => [':']
  | some _ => [':', ' ']

mutual
/-- `JSON.stringify(v)` (gap `none`) and `JSON.stringify(v, null, g)`
(gap `some g`), at indentation depth `ind`, as a character list. -/
def printJson (gap : Option Nat) (ind : Nat) : Json → List Char
  | .str s => printString s
  | .arr [] => ['[', ']']
  | .arr (v :: vs) =>
    '[' :: (jsep gap (ind + 1) ++ printJson gap (ind + 1) v ++ printElems gap (ind + 1) vs
      ++ jsep gap ind ++ [']'])
  | .obj [] => ['\x7b', '\x7d']
  | .obj (m :: ms) =>
    '\x7b' :: (jsep gap (ind + 1) ++ printString m.1 ++ jcolon gap ++ printJson gap (ind + 1) m.2
      ++ printMembers gap (ind + 1) ms ++ jsep gap ind ++ ['\x7d'])

/-- The remaining array elements, each preceded by a comma and
separator. -/
def printElems (gap : Option Nat) (ind : Nat) : List Json → List Char
  | [] => []
  | v :: vs => ',' :: (jsep gap ind ++ printJson gap ind v ++ printElems gap ind vs)

/-- The remaining object members, each preceded by a comma and
separator. -/
def printMembers (gap : Option Nat) (ind : Nat) : List (String × Json) → List Char
  | [] => []
  | m :: ms =>
    ',' :: (jsep gap ind ++ printString m.1 ++ jcolon gap ++ printJson gap ind m.2
      ++ printMembers gap ind ms)
end

/-- JSON whitespace skipping, as done by `JSON.parse` between tokens. -/
def skipWs : List Char → List Char
  | [] => []
  | c :: cs => if c = ' ' ∨ c = '\n' ∨ c = '\t' ∨ c = '\r' then skipWs cs else c :: cs

/-- Value of one hex digit, accepting both cases. -/
def hexVal (c : Char) : Option Nat :=
  if '0' ≤ c ∧ c ≤ '9' then some (c.toNat - '0'.toNat)
  else if 'a' ≤ c ∧ c ≤ 'f' then some (c.toNat - 'a'.toNat + 10)
  else if 'A' ≤ c ∧ c ≤ 'F' then some (c.toNat - 'A'.toNat + 10)
  else none

/-- The named single-character escapes of JSON strings. -/
def escNamed (e : Char) : Option Char :=
  if e = '"' then some '"'
  else if e = '\\' then some '\\'
  else if e = '/' then some '/'
  else if e = 'b' then some '\x08'
  else if e = 't' then some '\x09'
  else if e = 'n' then some '\x0a'
  else if e = 'f' then some '\x0c'
  else if e = 'r' then some '\x0d'
  else none

/-- The body of a JSON string literal, after the opening quote: the
decoded characters and the input following the closing quote.  A
`\uXXXX` escape is accepted when it denotes a Unicode scalar value (a
lone surrogate, which JavaScript would keep as an unpaired UTF-16 code
unit, is not representable as a `Char` and is rejected). -/
def parseStringBody : List Char → Option (List Char × List Char)
  | [] => none
  | '"' :: rest => some ([], rest)
  | '\\' :: 'u' :: h1 :: h2 :: h3 :: h4 :: rest =>
    (match hexVal h1, hexVal h2, hexVal h3, hexVal h4 with
    | some a, some b, some c2, some d =>
      let n := ((a * 16 + b) * 16 + c2) * 16 + d
      if n < 0xd800 ∨ (0xdfff < n ∧ n < 0x110000) then
        match parseStringBody rest with
        | some (cs, r) => some (Char.ofNat n :: cs, r)
        | none => none
      else none
    | _, _, _, _ => none)
  | '\\' :: e :: rest =>
    (match escNamed e with
    | some ec =>
      match parseStringBody rest with
      | some (cs, r) => some (ec :: cs, r)
      | none => none
    | none => none)
  | c :: rest =>
    match parseStringBody rest with
    | some (cs, r) => some (c :: cs, r)
    | none => none

mutual
/-- Recursive-descent parser for the JSON fragment, with explicit fuel
(the model of `JSON.parse` on the document grammar).  Returns the parsed
value and the unconsumed input. -/
def parseValue : Nat → List Char → Option (Json × List Char)
  | 0, _ => none
  | fuel + 1, input =>
    match skipWs input with
    | [] => none
    | c :: rest =>
      if c = '"' then
        match parseStringBody rest with
        | some (cs, r) => some (.str (String.mk cs), r)
        | none => none
      else if c = '[' then
        match skipWs rest with
        | [] => none
        | c2 :: rest2 =>
          if c2 = ']' then some (.arr [], rest2)
          else
            match parseElemsAll fuel rest with
            | some (vs, r) => some (.arr vs, r)
            | none => none
      else if c = '\x7b' then
        match skipWs rest with
        | [] => none
        | c2 :: rest2 =>
          if c2 = '\x7d' then some (.obj [], rest2)
          else
            match parseMembersAll fuel rest with
            | some (ms, r) => some (.obj ms, r)
            | none => none
      else none

/-- One or more comma-separated array elements followed by `]`. -/
def parseElemsAll : Nat → List Char → Option (List Json × List Char)
  | 0, _ => none
  | fuel + 1, input =>
    match parseValue fuel input with
    | some (v, r) =>
      match skipWs r with
      | [] => none
      | c :: r2 =>
        if c = ',' then
          match parseElemsAll fuel r2 with
          | some (vs, r3) => some (v :: vs, r3)
          | none => none
        else if c = ']' then some ([v], r2)
        else none
    | none => none

/-- One or more comma-separated object members followed by the closing
brace. -/
def parseMembersAll : Nat → List Char → Option (List (String × Json) × List Char)
  | 0, _ => none
  | fuel + 1, input =>
    match skipWs input with
    | [] => none
    | c :: rest =>
      if c = '"' then
        match parseStringBody rest with
        | some (k, r) =>
          match skipWs r with
          | [] => none
          | c2 :: r2 =>
            if c2 = ':' then
              match parseValue fuel r2 with
              | some (v, r3) =>
                match skipWs r3 with
                | [] => none
                | c3 :: r4 =>
                  if c3 = ',' then
                    match parseMembersAll fuel r4 with
                    | some (ms, r5) => some ((String.mk k, v) :: ms, r5)
                    | none => none
                  else if c3 = '\x7d' then some ([(String.mk k, v)], r4)
                  else none
              | none => none
            else none
        | none => none
      else none
end

/-! Round-trip of the JSON codec. -/

theorem skipWs_replicate (n : Nat) (x : List Char) :
    skipWs (List.replicate n ' ' ++ x) = skipWs x := by
  induction n with
  | zero => rfl
  | succ n ih =>
    show skipWs (' ' :: (List.replicate n ' ' ++ x)) = skipWs x
    rw [skipWs, if_pos (by simp)]
    exact ih

theorem skipWs_jsep (g : Option Nat) (i : Nat) (x : List Char) :
    skipWs (jsep g i ++ x) = skipWs x := by
  cases g with
  | none => rfl
  | some gp =>
    show skipWs ('\n' :: (List.replicate (gp * i) ' ' ++ x)) = skipWs x
    rw [skipWs, if_pos (by simp)]
    exact skipWs_replicate _ _

theorem skipWs_not_ws {c : Char} (h : ¬(c = ' ' ∨ c = '\n' ∨ c = '\t' ∨ c = '\r'))
    (x : List Char) : skipWs (c :: x) = c :: x := by
  rw [skipWs, if_neg h]

theorem parseValue_congr {x1 x2 : List Char} (h : skipWs x1 = skipWs x2) (f : Nat) :
    parseValue f x1 = parseValue f x2 := by
  cases f with
  | zero => rfl
  | succ f => simp only [parseValue, h]

theorem hexVal_hexDigit : ∀ n, n < 16 → hexVal (hexDigit n) = some n := by decide

/-- Decoding inverts the escaping of JSON string bodies. -/
theorem parseStringBody_escape (s : List Char) (rest : List Char) :
    parseStringBody (s.flatMap escapeChar ++ '"' :: rest) = some (s, rest) := by
  induction s with
  | nil =>
    show parseStringBody (([] : List Char).flatMap escapeChar ++ '"' :: rest) = some ([], rest)
    rw [show ([] : List Char).flatMap escapeChar = [] from by simp, List.nil_append]
    rfl
  | cons c s ih =>
    show parseStringBody ((escapeChar c ++ s.flatMap escapeChar) ++ '"' :: rest) = some (c :: s, rest)
    rw [List.append_assoc]
    by_cases h1 : c = '"'
    · subst h1
      rw [show escapeChar '"' = ['\\', '"'] from by simp [escapeChar]]
      show parseStringBody ('\\' :: '"' :: (s.flatMap escapeChar ++ '"' :: rest)) = _
      rw [show parseStringBody ('\\' :: '"' :: (s.flatMap escapeChar ++ '"' :: rest)) =
          (match parseStringBody (s.flatMap escapeChar ++ '"' :: rest) with
          | some (cs, r) => some ('"' :: cs, r)
          | none => none) from rfl, ih]
    · by_cases h2 : c = '\\'
      · subst h2
        rw [show escapeChar '\\' = ['\\', '\\'] from by simp [escapeChar]]
        show parseStringBody ('\\' :: '\\' :: (s.flatMap escapeChar ++ '"' :: rest)) = _
        rw [show parseStringBody ('\\' :: '\\' :: (s.flatMap escapeChar ++ '"' :: rest)) =
            (match parseStringBody (s.flatMap escapeChar ++ '"' :: rest) with
            | some (cs, r) => some ('\\' :: cs, r)
            | none => none) from rfl, ih]
      · by_cases h3 : c = '\x08'
        · subst h3
          rw [show escapeChar '\x08' = ['\\', 'b'] from by simp [escapeChar]]
          show parseStringBody ('\\' :: 'b' :: (s.flatMap escapeChar ++ '"' :: rest)) = _
          rw [show parseStringBody ('\\' :: 'b' :: (s.flatMap escapeChar ++ '"' :: rest)) =
              (match parseStringBody (s.flatMap escapeChar ++ '"' :: rest) with
              | some (cs, r) => some ('\x08' :: cs, r)
              | none => none) from rfl, ih]
        · by_cases h4 : c = '\x09'
          · subst h4
            rw [show escapeChar '\x09' = ['\\', 't'] from by simp [escapeChar]]
            show parseStringBody ('\\' :: 't' :: (s.flatMap escapeChar ++ '"' :: rest)) = _
            rw [show parseStringBody ('\\' :: 't' :: (s.flatMap escapeChar ++ '"' :: rest)) =
                (match parseStringBody (s.flatMap escapeChar ++ '"' :: rest) with
                | some (cs, r) => some ('\x09' :: cs, r)
                | none => none) from rfl, ih]
          · by_cases h5 : c = '\x0a'
            · subst h5
              rw [show escapeChar '\x0a' = ['\\', 'n'] from by simp [escapeChar]]
              show parseStringBody ('\\' :: 'n' :: (s.flatMap escapeChar ++ '"' :: rest)) = _
              rw [show parseStringBody ('\\' :: 'n' :: (s.flatMap escapeChar ++ '"' :: rest)) =
                  (match parseStringBody (s.flatMap escapeChar ++ '"' :: rest) with
                  | some (cs, r) => some ('\x0a' :: cs, r)
                  | none => none) from rfl, ih]
            · by_cases h6 : c = '\x0c'
              · subst h6
                rw [show escapeChar '\x0c' = ['\\', 'f'] from by simp [escapeChar]]
                show parseStringBody ('\\' :: 'f' :: (s.flatMap escapeChar ++ '"' :: rest)) = _
                rw [show parseStringBody ('\\' :: 'f' :: (s.flatMap escapeChar ++ '"' :: rest)) =
                    (match parseStringBody (s.flatMap escapeChar ++ '"' :: rest) with
                    | some (cs, r) => some ('\x0c' :: cs, r)
                    | none => none) from rfl, ih]
              · by_cases h7 : c = '\x0d'
                · subst h7
                  rw [show escapeChar '\x0d' = ['\\', 'r'] from by simp [escapeChar]]
                  show parseStringBody ('\\' :: 'r' :: (s.flatMap escapeChar ++ '"' :: rest)) = _
                  rw [show parseStringBody ('\\' :: 'r' :: (s.flatMap escapeChar ++ '"' :: rest)) =
                      (match parseStringBody (s.flatMap escapeChar ++ '"' :: rest) with
                      | some (cs, r) => some ('\x0d' :: cs, r)
                      | none => none) from rfl, ih]
                · by_cases h8 : c.toNat < 0x20
                  · rw [show escapeChar c =
                        ['\\', 'u', '0', '0', hexDigit (c.toNat / 16), hexDigit (c.toNat % 16)] from by
                      rw [escapeChar, if_neg h1, if_neg h2, if_neg h3, if_neg h4, if_neg h5,
                        if_neg h6, if_neg h7, if_pos h8]]
                    have hd1 := hexVal_hexDigit (c.toNat / 16) (by omega)
                    have hd2 := hexVal_hexDigit (c.toNat % 16) (by omega)
                    show parseStringBody ('\\' :: 'u' :: '0' :: '0' :: hexDigit (c.toNat / 16)
                        :: hexDigit (c.toNat % 16) :: (s.flatMap escapeChar ++ '"' :: rest)) = _
                    rw [show parseStringBody ('\\' :: 'u' :: '0' :: '0' :: hexDigit (c.toNat / 16)
                        :: hexDigit (c.toNat % 16) :: (s.flatMap escapeChar ++ '"' :: rest)) =
                        (match hexVal '0', hexVal '0', hexVal (hexDigit (c.toNat / 16)),
                            hexVal (hexDigit (c.toNat % 16)) with
                        | some a, some b, some c2, some d =>
                          let n := ((a * 16 + b) * 16 + c2) * 16 + d
                          if n < 0xd800 ∨ (0xdfff < n ∧ n < 0x110000) then
                            match parseStringBody (s.flatMap escapeChar ++ '"' :: rest) with
                            | some (cs, r) => some (Char.ofNat n :: cs, r)
                            | none => none
                          else none
                        | _, _, _, _ => none) from rfl]
                    rw [hd1, hd2, show hexVal '0' = some 0 from rfl]
                    show (let n := ((0 * 16 + 0) * 16 + c.toNat / 16) * 16 + c.toNat % 16
                      if n < 0xd800 ∨ (0xdfff < n ∧ n < 0x110000) then
                        match parseStringBody (s.flatMap escapeChar ++ '"' :: rest) with
                        | some (cs, r) => some (Char.ofNat n :: cs, r)
                        | none => none
                      else none) = some (c :: s, rest)
                    have hn : ((0 * 16 + 0) * 16 + c.toNat / 16) * 16 + c.toNat % 16 = c.toNat := by
                      omega
                    simp only [hn]
                    rw [if_pos (Or.inl (by omega)), ih, Char.ofNat_toNat]
                  · rw [show escapeChar c = [c] from by
                      rw [escapeChar, if_neg h1, if_neg h2, if_neg h3, if_neg h4, if_neg h5,
                        if_neg h6, if_neg h7, if_neg h8]]
                    show parseStringBody (c :: (s.flatMap escapeChar ++ '"' :: rest)) = _
                    simp [parseStringBody, h1, h2, ih]

mutual
/-- Fuel needed by the parser for a value. -/
def jsonSize : Json → Nat
  | .str _ => 1
  | .arr vs => 1 + listSize vs
  | .obj ms => 1 + memsSize ms

/-- Fuel needed for a list of array elements. -/
def listSize : List Json → Nat
  | [] => 0
  | v :: vs => 1 + jsonSize v + listSize vs

/-- Fuel needed for a list of object members. -/
def memsSize : List (String × Json) → Nat
  | [] => 0
  | m :: ms => 1 + jsonSize m.2 + memsSize ms
end

theorem jsonSize_pos (v : Json) : 1 ≤ jsonSize v := by
  cases v <;> simp [jsonSize]

/-- Step lemma: the parser on an opening quote. -/
theorem parseValue_succ_quote (fuel : Nat) (tail : List Char) :
    parseValue (fuel + 1) ('"' :: tail) =
      (match parseStringBody tail with
      | some (cs, r) => some (.str (String.mk cs), r)
      | none => none) := rfl

/-- Step lemma: the parser on an opening bracket. -/
theorem parseValue_succ_lbrack (fuel : Nat) (tail : List Char) :
    parseValue (fuel + 1) ('[' :: tail) =
      (match skipWs tail with
      | [] => none
      | c2 :: rest2 =>
        if c2 = ']' then some (.arr [], rest2)
        else
          match parseElemsAll fuel tail with
          | some (vs, r) => some (.arr vs, r)
          | none => none) := rfl

/-- Step lemma: the parser on an opening brace. -/
theorem parseValue_succ_lbrace (fuel : Nat) (tail : List Char) :
    parseValue (fuel + 1) ('\x7b' :: tail) =
      (match skipWs tail with
      | [] => none
      | c2 :: rest2 =>
        if c2 = '\x7d' then some (.obj [], rest2)
        else
          match parseMembersAll fuel tail with
          | some (ms, r) => some (.obj ms, r)
          | none => none) := rfl

/-- Step lemma: the element parser unfolds one step. -/
theorem parseElemsAll_succ (fuel : Nat) (input : List Char) :
    parseElemsAll (fuel + 1) input =
      (match parseValue fuel input with
      | some (v, r) =>
        match skipWs r with
        | [] => none
        | c :: r2 =>
          if c = ',' then
            match parseElemsAll fuel r2 with
            | some (vs, r3) => some (v :: vs, r3)
            | none => none
          else if c = ']' then some ([v], r2)
          else none
      | none => none) := rfl

/-- Step lemma: the member parser on an opening quote. -/
theorem parseMembersAll_succ_quote (fuel : Nat) (tail : List Char) :
    parseMembersAll (fuel + 1) ('"' :: tail) =
      (match parseStringBody tail with
      | some (k, r) =>
        match skipWs r with
        | [] => none
        | c2 :: r2 =>
          if c2 = ':' then
            match parseValue fuel r2 with
            | some (v, r3) =>
              match skipWs r3 with
              | [] => none
              | c3 :: r4 =>
                if c3 = ',' then
                  match parseMembersAll fuel r4 with
                  | some (ms, r5) => some ((String.mk k, v) :: ms, r5)
                  | none => none
                else if c3 = '\x7d' then some ([(String.mk k, v)], r4)
                else none
            | none => none
          else none
      | none => none) := rfl

/-- The member parser only looks at its input through `skipWs`. -/
theorem parseMembersAll_congr {x1 x2 : List Char} (h : skipWs x1 = skipWs x2) (f : Nat) :
    parseMembersAll f x1 = parseMembersAll f x2 := by
  cases f with
  | zero => rfl
  | succ f => simp only [parseMembersAll, h]

/-- Every printed value starts with a quote, bracket or brace. -/
theorem printJson_head (g : Option Nat) (i : Nat) (v : Json) :
    ∃ c cs, printJson g i v = c :: cs ∧ (c = '"' ∨ c = '[' ∨ c = '\x7b') := by
  cases v with
  | str s => exact ⟨'"', _, rfl, Or.inl rfl⟩
  | arr vs =>
    cases vs with
    | nil => exact ⟨'[', _, rfl, Or.inr (Or.inl rfl)⟩
    | cons v vs => exact ⟨'[', _, rfl, Or.inr (Or.inl rfl)⟩
  | obj ms =>
    cases ms with
    | nil => exact ⟨'\x7b', _, rfl, Or.inr (Or.inr rfl)⟩
    | cons m ms => exact ⟨'\x7b', _, rfl, Or.inr (Or.inr rfl)⟩

/-- A `jcolon` prefix is a colon, possibly followed by a space the
value parser skips. -/
theorem jcolon_cons (g : Option Nat) (fuel : Nat) (x : List Char) :
    ∃ z, jcolon g ++ x = ':' :: z ∧ parseValue fuel z = parseValue fuel x := by
  cases g with
  | none => exact ⟨x, rfl, rfl⟩
  | some gp =>
    refine ⟨' ' :: x, rfl, parseValue_congr ?_ fuel⟩
    rw [skipWs, if_pos (by simp)]

/-- Leading separator plus printed value: whitespace skipping stops at
the value's first character. -/
theorem skipWs_print (g : Option Nat) (i1 : Nat) (v : Json) (x : List Char) :
    skipWs (jsep g i1 ++ (printJson g i1 v ++ x)) = printJson g i1 v ++ x := by
  obtain ⟨c, cs, hpc, hcq⟩ := printJson_head g i1 v
  rw [skipWs_jsep, hpc, List.cons_append,
    skipWs_not_ws (by rcases hcq with rfl | rfl | rfl <;> decide)]

/-- The head of a printed value is not a closing token. -/
theorem printJson_head_ne (g : Option Nat) (i1 : Nat) (v : Json) (x : List Char) :
    ∃ c cs, printJson g i1 v ++ x = c :: cs ∧ ¬ c = ']' ∧ ¬ c = '\x7d' ∧ ¬ c = ',' := by
  obtain ⟨c, cs, hpc, hcq⟩ := printJson_head g i1 v
  exact ⟨c, cs ++ x, by rw [hpc, List.cons_append], by
    rcases hcq with rfl | rfl | rfl <;> decide, by
    rcases hcq with rfl | rfl | rfl <;> decide, by
    rcases hcq with rfl | rfl | rfl <;> decide⟩

/-- Leading separator plus printed key: whitespace skipping stops at the
opening quote. -/
theorem skipWs_printString (g : Option Nat) (i1 : Nat) (k : String) (x : List Char) :
    skipWs (jsep g i1 ++ (printString k ++ x))
      = '"' :: (k.toList.flatMap escapeChar ++ '"' :: x) := by
  rw [skipWs_jsep]
  rw [show printString k ++ x = '"' :: (k.toList.flatMap escapeChar ++ '"' :: x) from by
    show ('"' :: (k.toList.flatMap escapeChar ++ ['"'])) ++ x = _
    simp]
  rw [skipWs_not_ws (by decide)]

/-- The joint statement of the parse–print round-trip, by induction on
the parser fuel: a printed value parses back to itself (at any gap and
indentation), and likewise for printed element and member tails. -/
theorem parse_print_joint : ∀ fuel : Nat,
    (∀ g i v rest, jsonSize v ≤ fuel →
      parseValue fuel (printJson g i v ++ rest) = some (v, rest)) ∧
    (∀ g i1 i0 v vs rest, 1 + jsonSize v + listSize vs ≤ fuel →
      parseElemsAll fuel
          (jsep g i1 ++ (printJson g i1 v ++ (printElems g i1 vs ++ (jsep g i0 ++ ']' :: rest))))
        = some (v :: vs, rest)) ∧
    (∀ g i1 i0 k v ms rest, 1 + jsonSize v + memsSize ms ≤ fuel →
      parseMembersAll fuel
          (jsep g i1 ++ (printString k ++ (jcolon g ++ (printJson g i1 v
            ++ (printMembers g i1 ms ++ (jsep g i0 ++ '\x7d' :: rest))))))
        = some ((k, v) :: ms, rest)) := by
  intro fuel
  induction fuel with
  | zero =>
    refine ⟨?_, ?_, ?_⟩
    · intro g i v rest hsz
      have := jsonSize_pos v
      omega
    · intro g i1 i0 v vs rest hsz
      omega
    · intro g i1 i0 k v ms rest hsz
      omega
  | succ fuel ih =>
    obtain ⟨ihV, ihE, ihM⟩ := ih
    refine ⟨?_, ?_, ?_⟩
    · intro g i v rest hsz
      cases v with
      | str s =>
        rw [show printJson g i (.str s) ++ rest
            = '"' :: (s.toList.flatMap escapeChar ++ '"' :: rest) from by
          show ('"' :: (s.toList.flatMap escapeChar ++ ['"'])) ++ rest = _
          simp]
        rw [parseValue_succ_quote, parseStringBody_escape]
        rfl
      | arr vs =>
        cases vs with
        | nil =>
          rw [show printJson g i (.arr []) ++ rest = '[' :: ']' :: rest from rfl,
            parseValue_succ_lbrack, skipWs_not_ws (by decide)]
          exact if_pos rfl
        | cons v1 vs =>
          have hsz1 : 1 + jsonSize v1 + listSize vs ≤ fuel := by
            simp only [jsonSize, listSize] at hsz
            omega
          rw [show printJson g i (.arr (v1 :: vs)) ++ rest
              = '[' :: (jsep g (i + 1) ++ (printJson g (i + 1) v1 ++ (printElems g (i + 1) vs
                ++ (jsep g i ++ ']' :: rest)))) from by
            show ('[' :: (jsep g (i + 1) ++ printJson g (i + 1) v1 ++ printElems g (i + 1) vs
              ++ jsep g i ++ [']'])) ++ rest = _
            simp]
          rw [parseValue_succ_lbrack]
          obtain ⟨c, cs, hpc, hne1, hne2, hne3⟩ :=
            printJson_head_ne g (i + 1) v1
              (printElems g (i + 1) vs ++ (jsep g i ++ ']' :: rest))
          rw [show skipWs (jsep g (i + 1) ++ (printJson g (i + 1) v1 ++ (printElems g (i + 1) vs
              ++ (jsep g i ++ ']' :: rest))))
              = c :: cs from by rw [skipWs_print, hpc]]
          show (if c = ']' then some (Json.arr [], cs)
              else
                match parseElemsAll fuel (jsep g (i + 1) ++ (printJson g (i + 1) v1
                    ++ (printElems g (i + 1) vs ++ (jsep g i ++ ']' :: rest)))) with
                | some (vs2, r) => some (Json.arr vs2, r)
                | none => none)
              = some (Json.arr (v1 :: vs), rest)
          rw [if_neg hne1, ihE g (i + 1) i v1 vs rest hsz1]
      | obj ms =>
        cases ms with
        | nil =>
          rw [show printJson g i (.obj []) ++ rest = '\x7b' :: '\x7d' :: rest from rfl,
            parseValue_succ_lbrace, skipWs_not_ws (by decide)]
          exact if_pos rfl
        | cons m ms =>
          have hsz1 : 1 + jsonSize m.2 + memsSize ms ≤ fuel := by
            simp only [jsonSize, memsSize] at hsz
            omega
          rw [show printJson g i (.obj (m :: ms)) ++ rest
              = '\x7b' :: (jsep g (i + 1) ++ (printString m.1 ++ (jcolon g
                ++ (printJson g (i + 1) m.2 ++ (printMembers g (i + 1) ms
                ++ (jsep g i ++ '\x7d' :: rest)))))) from by
            show ('\x7b' :: (jsep g (i + 1) ++ printString m.1 ++ jcolon g
              ++ printJson g (i + 1) m.2 ++ printMembers g (i + 1) ms
              ++ jsep g i ++ ['\x7d'])) ++ rest = _
            simp]
          rw [parseValue_succ_lbrace]
          rw [skipWs_printString g (i + 1) m.1]
          show (if ('"' : Char) = '\x7d' then
                some (Json.obj [], m.1.toList.flatMap escapeChar ++ '"' :: (jcolon g
                  ++ (printJson g (i + 1) m.2 ++ (printMembers g (i + 1) ms
                  ++ (jsep g i ++ '\x7d' :: rest)))))
              else
                match parseMembersAll fuel (jsep g (i + 1) ++ (printString m.1 ++ (jcolon g
                    ++ (printJson g (i + 1) m.2 ++ (printMembers g (i + 1) ms
                    ++ (jsep g i ++ '\x7d' :: rest)))))) with
                | some (ms2, r) => some (Json.obj ms2, r)
                | none => none)
              = some (Json.obj (m :: ms), rest)
          rw [if_neg (by decide), ihM g (i + 1) i m.1 m.2 ms rest hsz1]
    · intro g i1 i0 v vs rest hsz
      have hszv : jsonSize v ≤ fuel := by omega
      rw [parseElemsAll_succ]
      have hv : parseValue fuel (jsep g i1 ++ (printJson g i1 v
          ++ (printElems g i1 vs ++ (jsep g i0 ++ ']' :: rest))))
          = some (v, printElems g i1 vs ++ (jsep g i0 ++ ']' :: rest)) := by
        rw [parseValue_congr (skipWs_jsep g i1 _) fuel]
        exact ihV g i1 v _ hszv
      rw [hv]
      cases vs with
      | nil =>
        show (match skipWs (printElems g i1 [] ++ (jsep g i0 ++ ']' :: rest)) with
            | [] => none
            | c :: r2 =>
              if c = ',' then
                match parseElemsAll fuel r2 with
                | some (vs2, r3) => some (v :: vs2, r3)
                | none => none
              else if c = ']' then some ([v], r2)
              else none)
            = some ([v], rest)
        rw [show skipWs (printElems g i1 ([] : List Json) ++ (jsep g i0 ++ ']' :: rest))
            = ']' :: rest from by
          rw [show printElems g i1 ([] : List Json) = [] from rfl, List.nil_append,
            skipWs_jsep, skipWs_not_ws (by decide)]]
        exact (if_neg (by decide)).trans (if_pos rfl)
      | cons v2 vs2 =>
        have hsz2 : 1 + jsonSize v2 + listSize vs2 ≤ fuel := by
          simp only [listSize] at hsz
          omega
        show (match skipWs (printElems g i1 (v2 :: vs2) ++ (jsep g i0 ++ ']' :: rest)) with
            | [] => none
            | c :: r2 =>
              if c = ',' then
                match parseElemsAll fuel r2 with
                | some (vs3, r3) => some (v :: vs3, r3)
                | none => none
              else if c = ']' then some ([v], r2)
              else none)
            = some (v :: v2 :: vs2, rest)
        rw [show printElems g i1 (v2 :: vs2) ++ (jsep g i0 ++ ']' :: rest)
            = ',' :: (jsep g i1 ++ (printJson g i1 v2 ++ (printElems g i1 vs2
              ++ (jsep g i0 ++ ']' :: rest)))) from by
          show (',' :: (jsep g i1 ++ printJson g i1 v2 ++ printElems g i1 vs2))
              ++ (jsep g i0 ++ ']' :: rest) = _
          simp]
        rw [skipWs_not_ws (by decide)]
        show (if (',' : Char) = ',' then
              match parseElemsAll fuel (jsep g i1 ++ (printJson g i1 v2 ++ (printElems g i1 vs2
                  ++ (jsep g i0 ++ ']' :: rest)))) with
              | some (vs3, r3) => some (v :: vs3, r3)
              | none => none
            else if (',' : Char) = ']' then
              some ([v], jsep g i1 ++ (printJson g i1 v2 ++ (printElems g i1 vs2
                ++ (jsep g i0 ++ ']' :: rest))))
            else none)
            = some (v :: v2 :: vs2, rest)
        rw [if_pos rfl, ihE g i1 i0 v2 vs2 rest hsz2]
    · intro g i1 i0 k v ms rest hsz
      have hszv : jsonSize v ≤ fuel := by omega
      rw [@parseMembersAll_congr _ ('"' :: (k.toList.flatMap escapeChar ++ '"' :: (jcolon g
        ++ (printJson g i1 v ++ (printMembers g i1 ms ++ (jsep g i0 ++ '\x7d' :: rest))))))
        (by rw [skipWs_printString, skipWs_not_ws (by decide)]) (fuel + 1)]
      rw [parseMembersAll_succ_quote, parseStringBody_escape]
      obtain ⟨z, hz, hpz⟩ := jcolon_cons g fuel
        (printJson g i1 v ++ (printMembers g i1 ms ++ (jsep g i0 ++ '\x7d' :: rest)))
      show (match skipWs (jcolon g ++ (printJson g i1 v ++ (printMembers g i1 ms
          ++ (jsep g i0 ++ '\x7d' :: rest)))) with
          | [] => none
          | c2 :: r2 =>
            if c2 = ':' then
              match parseValue fuel r2 with
              | some (v2, r3) =>
                match skipWs r3 with
                | [] => none
                | c3 :: r4 =>
                  if c3 = ',' then
                    match parseMembersAll fuel r4 with
                    | some (ms2, r5) => some ((String.mk k.toList, v2) :: ms2, r5)
                    | none => none
                  else if c3 = '\x7d' then some ([(String.mk k.toList, v2)], r4)
                  else none
              | none => none
            else none)
          = some ((k, v) :: ms, rest)
      rw [hz, skipWs_not_ws (by decide)]
      show (if (':' : Char) = ':' then
            match parseValue fuel z with
            | some (v2, r3) =>
              match skipWs r3 with
              | [] => none
              | c3 :: r4 =>
                if c3 = ',' then
                  match parseMembersAll fuel r4 with
                  | some (ms2, r5) => some ((String.mk k.toList, v2) :: ms2, r5)
                  | none => none
                else if c3 = '\x7d' then some ([(String.mk k.toList, v2)], r4)
                else none
            | none => none
          else none)
          = some ((k, v) :: ms, rest)
      rw [if_pos rfl, hpz, ihV g i1 v _ hszv]
      cases ms with
      | nil =>
        show (match skipWs (printMembers g i1 [] ++ (jsep g i0 ++ '\x7d' :: rest)) with
            | [] => none
            | c3 :: r4 =>
              if c3 = ',' then
                match parseMembersAll fuel r4 with
                | some (ms2, r5) => some ((String.mk k.toList, v) :: ms2, r5)
                | none => none
              else if c3 = '\x7d' then some ([(String.mk k.toList, v)], r4)
              else none)
            = some ([(k, v)], rest)
        rw [show skipWs (printMembers g i1 ([] : List (String × Json))
            ++ (jsep g i0 ++ '\x7d' :: rest)) = '\x7d' :: rest from by
          rw [show printMembers g i1 ([] : List (String × Json)) = [] from rfl,
            List.nil_append, skipWs_jsep, skipWs_not_ws (by decide)]]
        exact (if_neg (by decide)).trans (if_pos rfl)
      | cons m2 ms2 =>
        have hsz2 : 1 + jsonSize m2.2 + memsSize ms2 ≤ fuel := by
          simp only [memsSize] at hsz
          omega
        show (match skipWs (printMembers g i1 (m2 :: ms2) ++ (jsep g i0 ++ '\x7d' :: rest)) with
            | [] => none
            | c3 :: r4 =>
              if c3 = ',' then
                match parseMembersAll fuel r4 with
                | some (ms3, r5) => some ((String.mk k.toList, v) :: ms3, r5)
                | none => none
              else if c3 = '\x7d' then some ([(String.mk k.toList, v)], r4)
              else none)
            = some ((k, v) :: m2 :: ms2, rest)
        rw [show printMembers g i1 (m2 :: ms2) ++ (jsep g i0 ++ '\x7d' :: rest)
            = ',' :: (jsep g i1 ++ (printString m2.1 ++ (jcolon g ++ (printJson g i1 m2.2
              ++ (printMembers g i1 ms2 ++ (jsep g i0 ++ '\x7d' :: rest)))))) from by
          show (',' :: (jsep g i1 ++ printString m2.1 ++ jcolon g ++ printJson g i1 m2.2
            ++ printMembers g i1 ms2)) ++ (jsep g i0 ++ '\x7d' :: rest) = _
          simp]
        rw [skipWs_not_ws (by decide)]
        show (if (',' : Char) = ',' then
              match parseMembersAll fuel (jsep g i1 ++ (printString m2.1 ++ (jcolon g
                  ++ (printJson g i1 m2.2 ++ (printMembers g i1 ms2
                  ++ (jsep g i0 ++ '\x7d' :: rest)))))) with
              | some (ms3, r5) => some ((String.mk k.toList, v) :: ms3, r5)
              | none => none
            else if (',' : Char) = '\x7d' then
              some ([(String.mk k.toList, v)],
                jsep g i1 ++ (printString m2.1 ++ (jcolon g ++ (printJson g i1 m2.2
                  ++ (printMembers g i1 ms2 ++ (jsep g i0 ++ '\x7d' :: rest))))))
            else none)
            = some ((k, v) :: m2 :: ms2, rest)
        rw [if_pos rfl, ihM g i1 i0 m2.1 m2.2 ms2 rest hsz2]
        rfl

/-- The parser fuel a value needs is at most the length of its printed
form (joint over the three printers, by induction on a fuel bound). -/
theorem size_print_len : ∀ fuel : Nat,
    (∀ g i v, jsonSize v ≤ fuel → jsonSize v ≤ (printJson g i v).length) ∧
    (∀ g i vs, listSize vs ≤ fuel → listSize vs ≤ (printElems g i vs).length) ∧
    (∀ g i ms, memsSize ms ≤ fuel → memsSize ms ≤ (printMembers g i ms).length) := by
  intro fuel
  induction fuel with
  | zero =>
    refine ⟨?_, ?_, ?_⟩
    · intro g i v hsz
      exact absurd hsz (by have := jsonSize_pos v; omega)
    · intro g i vs hsz
      omega
    · intro g i ms hsz
      omega
  | succ fuel ih =>
    obtain ⟨ihV, ihE, ihM⟩ := ih
    refine ⟨?_, ?_, ?_⟩
    · intro g i v hsz
      cases v with
      | str s =>
        simp [jsonSize, printJson, printString]
      | arr vs =>
        cases vs with
        | nil => simp [jsonSize, listSize, printJson]
        | cons v vs =>
          have h1 : jsonSize v ≤ (printJson g (i + 1) v).length := by
            apply ihV
            simp only [jsonSize, listSize] at hsz
            omega
          have h2 : listSize vs ≤ (printElems g (i + 1) vs).length := by
            apply ihE
            simp only [jsonSize, listSize] at hsz
            omega
          simp only [jsonSize, listSize, printJson, List.length_cons, List.length_append]
          omega
      | obj ms =>
        cases ms with
        | nil => simp [jsonSize, memsSize, printJson]
        | cons m ms =>
          have h1 : jsonSize m.2 ≤ (printJson g (i + 1) m.2).length := by
            apply ihV
            simp only [jsonSize, memsSize] at hsz
            omega
          have h2 : memsSize ms ≤ (printMembers g (i + 1) ms).length := by
            apply ihM
            simp only [jsonSize, memsSize] at hsz
            omega
          simp only [jsonSize, memsSize, printJson, List.length_cons, List.length_append]
          omega
    · intro g i vs hsz
      cases vs with
      | nil => simp [listSize, printElems]
      | cons v vs =>
        have h1 : jsonSize v ≤ (printJson g i v).length := by
          apply ihV
          simp only [listSize] at hsz
          omega
        have h2 : listSize vs ≤ (printElems g i vs).length := by
          apply ihE
          simp only [listSize] at hsz
          omega
        simp only [listSize, printElems, List.length_cons, List.length_append]
        omega
    · intro g i ms hsz
      cases ms with
      | nil => simp [memsSize, printMembers]
      | cons m ms =>
        have h1 : jsonSize m.2 ≤ (printJson g i m.2).length := by
          apply ihV
          simp only [memsSize] at hsz
          omega
        have h2 : memsSize ms ≤ (printMembers g i ms).length := by
          apply ihM
          simp only [memsSize] at hsz
          omega
        simp only [memsSize, printMembers, List.length_cons, List.length_append]
        omega

theorem jsonSize_le_length (g : Option Nat) (i : Nat) (v : Json) :
    jsonSize v ≤ (printJson g i v).length :=
  (size_print_len (jsonSize v)).1 g i v le_rfl

/-- `JSON.parse` on the document fragment: parse one value and require
only whitespace after it.  The fuel `length + 1` always suffices for an
input the printer produced. -/
def jsonParse (s : List Char) : Option Json :=
  match parseValue (s.length + 1) s with
  | some (v, rest) => if skipWs rest = [] then some v else none
  | none => none

/-- Parsing inverts printing, at any gap and indentation. -/
theorem jsonParse_print (g : Option Nat) (i : Nat) (v : Json) :
    jsonParse (printJson g i v) = some v := by
  have h := (parse_print_joint ((printJson g i v).length + 1)).1 g i v []
    (le_trans (jsonSize_le_length g i v) (Nat.le_succ _))
  rw [List.append_nil] at h
  simp [jsonParse, h, skipWs]

/-! The byte layer of the share link.  `btoa(unescape(encodeURIComponent(json)))`
first turns the JSON text into its UTF-8 bytes (that is what the
`unescape`/`encodeURIComponent` composition does), then base64-encodes
them; `decodeURIComponent(escape(atob(encoded)))` is the inverse. -/

/-- UTF-8 encoding of one character (1 to 4 bytes). -/
def utf8EncodeChar (c : Char) : List Nat :=
  let n := c.toNat
  if n < 0x80 then [n]
  else if n < 0x800 then [0xc0 + n / 64, 0x80 + n % 64]
  else if n < 0x10000 then [0xe0 + n / 4096, 0x80 + n / 64 % 64, 0x80 + n % 64]
  else [0xf0 + n / 262144, 0x80 + n / 4096 % 64, 0x80 + n / 64 % 64, 0x80 + n % 64]

/-- UTF-8 encoding of a character list. -/
def utf8EncodeList (s : List Char) : List Nat :=
  s.flatMap utf8EncodeChar

/-- UTF-8 decoding with explicit fuel (one unit per decoded character;
the byte length is always enough).  Rejects truncated sequences, bad
continuation bytes, overlong forms, surrogates and out-of-range code
points, as `decodeURIComponent` does. -/
def utf8DecodeF : Nat → List Nat → Option (List Char)
  | _, [] => some []
  | 0, _ :: _ => none
  | fuel + 1, b :: bs =>
    if b < 0x80 then
      match utf8DecodeF fuel bs with
      | some cs => some (Char.ofNat b :: cs)
      | none => none
    else if 0xc2 ≤ b ∧ b < 0xe0 then
      match bs with
      | b2 :: bs2 =>
        if 0x80 ≤ b2 ∧ b2 < 0xc0 then
          match utf8DecodeF fuel bs2 with
          | some cs => some (Char.ofNat ((b - 0xc0) * 64 + (b2 - 0x80)) :: cs)
          | none => none
        else none
      | [] => none
    else if 0xe0 ≤ b ∧ b < 0xf0 then
      match bs with
      | b2 :: b3 :: bs3 =>
        if (0x80 ≤ b2 ∧ b2 < 0xc0) ∧ (0x80 ≤ b3 ∧ b3 < 0xc0) then
          if 0x800 ≤ (b - 0xe0) * 4096 + (b2 - 0x80) * 64 + (b3 - 0x80) ∧
              ((b - 0xe0) * 4096 + (b2 - 0x80) * 64 + (b3 - 0x80) < 0xd800 ∨
                0xdfff < (b - 0xe0) * 4096 + (b2 - 0x80) * 64 + (b3 - 0x80)) then
            match utf8DecodeF fuel bs3 with
            | some cs =>
              some (Char.ofNat ((b - 0xe0) * 4096 + (b2 - 0x80) * 64 + (b3 - 0x80)) :: cs)
            | none => none
          else none
        else none
      | _ => none
    else if 0xf0 ≤ b ∧ b < 0xf5 then
      match bs with
      | b2 :: b3 :: b4 :: bs4 =>
        if (0x80 ≤ b2 ∧ b2 < 0xc0) ∧ (0x80 ≤ b3 ∧ b3 < 0xc0) ∧ (0x80 ≤ b4 ∧ b4 < 0xc0) then
          if 0x10000 ≤ (b - 0xf0) * 262144 + (b2 - 0x80) * 4096 + (b3 - 0x80) * 64 + (b4 - 0x80) ∧
              (b - 0xf0) * 262144 + (b2 - 0x80) * 4096 + (b3 - 0x80) * 64 + (b4 - 0x80)
                < 0x110000 then
            match utf8DecodeF fuel bs4 with
            | some cs =>
              some (Char.ofNat ((b - 0xf0) * 262144 + (b2 - 0x80) * 4096 + (b3 - 0x80) * 64
                + (b4 - 0x80)) :: cs)
            | none => none
          else none
        else none
      | _ => none
    else none

/-- UTF-8 decoding of a byte list. -/
def utf8DecodeList (bs : List Nat) : Option (List Char) :=
  utf8DecodeF bs.length bs

/-- The validity range of a character's code point, in `Nat` form. -/
theorem char_valid_nat (c : Char) :
    c.toNat < 0xd800 ∨ (0xdfff < c.toNat ∧ c.toNat < 0x110000) := by
  have h := c.valid
  simp [UInt32.isValidChar, Nat.isValidChar, Char.toNat] at h
  exact h

/-- Decoding inverts UTF-8 encoding (with any sufficient fuel). -/
theorem utf8DecodeF_encode : ∀ s : List Char, ∀ fuel : Nat, s.length ≤ fuel →
    utf8DecodeF fuel (utf8EncodeList s ++ []) = some s := by
  intro s
  induction s with
  | nil => intro fuel _; cases fuel <;> rfl
  | cons c cs ih =>
    intro fuel hlen
    cases fuel with
    | zero => simp at hlen
    | succ fuel =>
      have hlen2 : cs.length ≤ fuel := by simp at hlen; omega
      have ihr := ih fuel hlen2
      have hvr := char_valid_nat c
      rw [show utf8EncodeList (c :: cs) ++ [] = utf8EncodeChar c ++ utf8EncodeList cs from by
        simp [utf8EncodeList]]
      rw [show utf8EncodeList cs = utf8EncodeList cs ++ [] from by simp] 
      by_cases h1 : c.toNat < 0x80
      · rw [show utf8EncodeChar c = [c.toNat] from by simp [utf8EncodeChar, h1]]
        show (if c.toNat < 0x80 then
            match utf8DecodeF fuel (utf8EncodeList cs ++ []) with
            | some cs2 => some (Char.ofNat c.toNat :: cs2)
            | none => none
          else _) = some (c :: cs)
        rw [if_pos h1, ihr, Char.ofNat_toNat]
      · by_cases h2 : c.toNat < 0x800
        · rw [show utf8EncodeChar c = [0xc0 + c.toNat / 64, 0x80 + c.toNat % 64] from by
            simp [utf8EncodeChar, h1, h2]]
          show (if 0xc0 + c.toNat / 64 < 0x80 then _
            else if 0xc2 ≤ 0xc0 + c.toNat / 64 ∧ 0xc0 + c.toNat / 64 < 0xe0 then
              if 0x80 ≤ 0x80 + c.toNat % 64 ∧ 0x80 + c.toNat % 64 < 0xc0 then
                match utf8DecodeF fuel (utf8EncodeList cs ++ []) with
                | some cs2 =>
                  some (Char.ofNat ((0xc0 + c.toNat / 64 - 0xc0) * 64
                    + (0x80 + c.toNat % 64 - 0x80)) :: cs2)
                | none => none
              else none
            else _) = some (c :: cs)
          rw [if_neg (by omega), if_pos (by omega), if_pos (by omega), ihr]
          rw [show (0xc0 + c.toNat / 64 - 0xc0) * 64 + (0x80 + c.toNat % 64 - 0x80)
            = c.toNat from by omega, Char.ofNat_toNat]
        · by_cases h3 : c.toNat < 0x10000
          · rw [show utf8EncodeChar c = [0xe0 + c.toNat / 4096, 0x80 + c.toNat / 64 % 64,
              0x80 + c.toNat % 64] from by simp [utf8EncodeChar, h1, h2, h3]]
            show (if 0xe0 + c.toNat / 4096 < 0x80 then _
              else if 0xc2 ≤ 0xe0 + c.toNat / 4096 ∧ 0xe0 + c.toNat / 4096 < 0xe0 then _
              else if 0xe0 ≤ 0xe0 + c.toNat / 4096 ∧ 0xe0 + c.toNat / 4096 < 0xf0 then
                if (0x80 ≤ 0x80 + c.toNat / 64 % 64 ∧ 0x80 + c.toNat / 64 % 64 < 0xc0) ∧
                    (0x80 ≤ 0x80 + c.toNat % 64 ∧ 0x80 + c.toNat % 64 < 0xc0) then
                  if 0x800 ≤ (0xe0 + c.toNat / 4096 - 0xe0) * 4096
                      + (0x80 + c.toNat / 64 % 64 - 0x80) * 64 + (0x80 + c.toNat % 64 - 0x80) ∧
                      ((0xe0 + c.toNat / 4096 - 0xe0) * 4096
                        + (0x80 + c.toNat / 64 % 64 - 0x80) * 64
                        + (0x80 + c.toNat % 64 - 0x80) < 0xd800 ∨
                        0xdfff < (0xe0 + c.toNat / 4096 - 0xe0) * 4096
                          + (0x80 + c.toNat / 64 % 64 - 0x80) * 64
                          + (0x80 + c.toNat % 64 - 0x80)) then
                    match utf8DecodeF fuel (utf8EncodeList cs ++ []) with
                    | some cs2 =>
                      some (Char.ofNat ((0xe0 + c.toNat / 4096 - 0xe0) * 4096
                        + (0x80 + c.toNat / 64 % 64 - 0x80) * 64
                        + (0x80 + c.toNat % 64 - 0x80)) :: cs2)
                    | none => none
                  else none
                else none
              else _) = some (c :: cs)
            have harith : (0xe0 + c.toNat / 4096 - 0xe0) * 4096
                + (0x80 + c.toNat / 64 % 64 - 0x80) * 64 + (0x80 + c.toNat % 64 - 0x80)
                = c.toNat := by omega
            rw [if_neg (by omega), if_neg (by omega), if_pos (by omega), if_pos (by omega),
              if_pos (by rw [harith]; omega), ihr, harith, Char.ofNat_toNat]
          · rw [show utf8EncodeChar c = [0xf0 + c.toNat / 262144, 0x80 + c.toNat / 4096 % 64,
              0x80 + c.toNat / 64 % 64, 0x80 + c.toNat % 64] from by
                simp [utf8EncodeChar, h1, h2, h3]]
            show (if 0xf0 + c.toNat / 262144 < 0x80 then _
              else if 0xc2 ≤ 0xf0 + c.toNat / 262144 ∧ 0xf0 + c.toNat / 262144 < 0xe0 then _
              else if 0xe0 ≤ 0xf0 + c.toNat / 262144 ∧ 0xf0 + c.toNat / 262144 < 0xf0 then _
              else if 0xf0 ≤ 0xf0 + c.toNat / 262144 ∧ 0xf0 + c.toNat / 262144 < 0xf5 then
                if (0x80 ≤ 0x80 + c.toNat / 4096 % 64 ∧ 0x80 + c.toNat / 4096 % 64 < 0xc0) ∧
                    (0x80 ≤ 0x80 + c.toNat / 64 % 64 ∧ 0x80 + c.toNat / 64 % 64 < 0xc0) ∧
                    (0x80 ≤ 0x80 + c.toNat % 64 ∧ 0x80 + c.toNat % 64 < 0xc0) then
                  if 0x10000 ≤ (0xf0 + c.toNat / 262144 - 0xf0) * 262144
                      + (0x80 + c.toNat / 4096 % 64 - 0x80) * 4096
                      + (0x80 + c.toNat / 64 % 64 - 0x80) * 64 + (0x80 + c.toNat % 64 - 0x80) ∧
                      (0xf0 + c.toNat / 262144 - 0xf0) * 262144
                        + (0x80 + c.toNat / 4096 % 64 - 0x80) * 4096
                        + (0x80 + c.toNat / 64 % 64 - 0x80) * 64
                        + (0x80 + c.toNat % 64 - 0x80) < 0x110000 then
                    match utf8DecodeF fuel (utf8EncodeList cs ++ []) with
                    | some cs2 =>
                      some (Char.ofNat ((0xf0 + c.toNat / 262144 - 0xf0) * 262144
                        + (0x80 + c.toNat / 4096 % 64 - 0x80) * 4096
                        + (0x80 + c.toNat / 64 % 64 - 0x80) * 64
                        + (0x80 + c.toNat % 64 - 0x80)) :: cs2)
                    | none => none
                  else none
                else none
              else _) = some (c :: cs)
            have hhi : c.toNat < 0x110000 := by rcases hvr with h | h <;> omega
            have harith : (0xf0 + c.toNat / 262144 - 0xf0) * 262144
                + (0x80 + c.toNat / 4096 % 64 - 0x80) * 4096
                + (0x80 + c.toNat / 64 % 64 - 0x80) * 64 + (0x80 + c.toNat % 64 - 0x80)
                = c.toNat := by omega
            rw [if_neg (by omega), if_neg (by omega), if_neg (by omega), if_pos (by omega),
              if_pos (by omega), if_pos (by rw [harith]; omega), ihr, harith, Char.ofNat_toNat]

theorem utf8EncodeChar_len (c : Char) : 1 ≤ (utf8EncodeChar c).length := by
  simp only [utf8EncodeChar]
  split_ifs <;> simp

theorem utf8List_len (s : List Char) : s.length ≤ (utf8EncodeList s).length := by
  induction s with
  | nil => simp [utf8EncodeList]
  | cons c cs ih =>
    have := utf8EncodeChar_len c
    simp only [utf8EncodeList, List.flatMap_cons, List.length_append, List.length_cons]
    simp only [utf8EncodeList] at ih
    omega

theorem utf8DecodeList_encode (s : List Char) :
    utf8DecodeList (utf8EncodeList s) = some s := by
  have h := utf8DecodeF_encode s (utf8EncodeList s).length (utf8List_len s)
  rw [List.append_nil] at h
  exact h

/-! The base64 layer: `btoa` over the standard alphabet with `=`
padding, and its inverse `atob`. -/

/-- The base64 alphabet. -/
def b64Char (n : Nat) : Char :=
  "ABCDEFGHIJKLMNOPQRSTUVWXYZabcdefghijklmnopqrstuvwxyz0123456789+/".toList.getD n 'A'

/-- The value of a base64 digit. -/
def b64Val (c : Char) : Option Nat :=
  if 'A' ≤ c ∧ c ≤ 'Z' then some (c.toNat - 65)
  else if 'a' ≤ c ∧ c ≤ 'z' then some (c.toNat - 97 + 26)
  else if '0' ≤ c ∧ c ≤ '9' then some (c.toNat - 48 + 52)
  else if c = '+' then some 62
  else if c = '/' then some 63
  else none

/-- `btoa`: base64 encoding of a byte list, three bytes to four digits,
with `=` padding on a short final group. -/
def btoa : List Nat → List Char
  | [] => []
  | [b1] => [b64Char (b1 / 4), b64Char (b1 % 4 * 16), '=', '=']
  | [b1, b2] => [b64Char (b1 / 4), b64Char (b1 % 4 * 16 + b2 / 16), b64Char (b2 % 16 * 4), '=']
  | b1 :: b2 :: b3 :: rest =>
    b64Char (b1 / 4) :: b64Char (b1 % 4 * 16 + b2 / 16) :: b64Char (b2 % 16 * 4 + b3 / 64)
      :: b64Char (b3 % 64) :: btoa rest

/-- `atob`: base64 decoding; rejects input whose length is not a
multiple of four, digits outside the alphabet, and padding before the
final group. -/
def atob : List Char → Option (List Nat)
  | [] => some []
  | c1 :: c2 :: c3 :: c4 :: rest =>
    if c3 = '=' ∧ c4 = '=' ∧ rest = [] then
      match b64Val c1, b64Val c2 with
      | some v1, some v2 => some [v1 * 4 + v2 / 16]
      | _, _ => none
    else if c4 = '=' ∧ rest = [] then
      match b64Val c1, b64Val c2, b64Val c3 with
      | some v1, some v2, some v3 => some [v1 * 4 + v2 / 16, v2 % 16 * 16 + v3 / 4]
      | _, _, _ => none
    else
      match b64Val c1, b64Val c2, b64Val c3, b64Val c4 with
      | some v1, some v2, some v3, some v4 =>
        (match atob rest with
        | some bs => some ((v1 * 4 + v2 / 16) :: (v2 % 16 * 16 + v3 / 4) :: (v3 % 4 * 64 + v4) :: bs)
        | none => none)
      | _, _, _, _ => none
  | _ => none

theorem b64Val_b64Char : ∀ n, n < 64 → b64Val (b64Char n) = some n := by decide

theorem b64Char_ne_pad (n : Nat) : b64Char n ≠ '=' := by
  unfold b64Char
  by_cases h : n < 64
  · interval_cases n <;> decide
  · rw [List.getD_eq_default]
    · decide
    · simpa using by omega

/-- Decoding inverts base64 encoding of genuine bytes. -/
theorem atob_btoa_fuel : ∀ n bs, bs.length ≤ n → (∀ b ∈ bs, b < 256) →
    atob (btoa bs) = some bs := by
  intro n
  induction n with
  | zero =>
    intro bs hlen hb
    rw [List.eq_nil_of_length_eq_zero (Nat.le_zero.mp hlen)]
    rfl
  | succ n ih =>
    intro bs hlen hb
    rcases bs with _ | ⟨b1, _ | ⟨b2, _ | ⟨b3, rest⟩⟩⟩
    · rfl
    · have h1 : b1 < 256 := hb b1 (by simp)
      show (if ('=' : Char) = '=' ∧ ('=' : Char) = '=' ∧ ([] : List Char) = [] then
          match b64Val (b64Char (b1 / 4)), b64Val (b64Char (b1 % 4 * 16)) with
          | some v1, some v2 => some [v1 * 4 + v2 / 16]
          | _, _ => none
        else _) = some [b1]
      rw [if_pos ⟨rfl, rfl, rfl⟩, b64Val_b64Char (b1 / 4) (by omega),
        b64Val_b64Char (b1 % 4 * 16) (by omega)]
      show some [b1 / 4 * 4 + b1 % 4 * 16 / 16] = some [b1]
      rw [show b1 / 4 * 4 + b1 % 4 * 16 / 16 = b1 from by omega]
    · have h1 : b1 < 256 := hb b1 (by simp)
      have h2 : b2 < 256 := hb b2 (by simp)
      show (if b64Char (b2 % 16 * 4) = '=' ∧ ('=' : Char) = '=' ∧ ([] : List Char) = [] then _
        else if ('=' : Char) = '=' ∧ ([] : List Char) = [] then
          match b64Val (b64Char (b1 / 4)), b64Val (b64Char (b1 % 4 * 16 + b2 / 16)),
              b64Val (b64Char (b2 % 16 * 4)) with
          | some v1, some v2, some v3 => some [v1 * 4 + v2 / 16, v2 % 16 * 16 + v3 / 4]
          | _, _, _ => none
        else _) = some [b1, b2]
      rw [if_neg (fun h => b64Char_ne_pad (b2 % 16 * 4) h.1), if_pos ⟨rfl, rfl⟩,
        b64Val_b64Char (b1 / 4) (by omega), b64Val_b64Char (b1 % 4 * 16 + b2 / 16) (by omega),
        b64Val_b64Char (b2 % 16 * 4) (by omega)]
      show some [b1 / 4 * 4 + (b1 % 4 * 16 + b2 / 16) / 16,
        (b1 % 4 * 16 + b2 / 16) % 16 * 16 + b2 % 16 * 4 / 4] = some [b1, b2]
      rw [show b1 / 4 * 4 + (b1 % 4 * 16 + b2 / 16) / 16 = b1 from by omega,
        show (b1 % 4 * 16 + b2 / 16) % 16 * 16 + b2 % 16 * 4 / 4 = b2 from by omega]
    · have h1 : b1 < 256 := hb b1 (by simp)
      have h2 : b2 < 256 := hb b2 (by simp)
      have h3 : b3 < 256 := hb b3 (by simp)
      have hrest : atob (btoa rest) = some rest :=
        ih rest (by simp at hlen; omega) (fun b hbm => hb b (by simp [hbm]))
      show (if b64Char (b2 % 16 * 4 + b3 / 64) = '=' ∧ b64Char (b3 % 64) = '='
            ∧ btoa rest = [] then _
        else if b64Char (b3 % 64) = '=' ∧ btoa rest = [] then _
        else
          match b64Val (b64Char (b1 / 4)), b64Val (b64Char (b1 % 4 * 16 + b2 / 16)),
              b64Val (b64Char (b2 % 16 * 4 + b3 / 64)), b64Val (b64Char (b3 % 64)) with
          | some v1, some v2, some v3, some v4 =>
            (match atob (btoa rest) with
            | some bs => some ((v1 * 4 + v2 / 16) :: (v2 % 16 * 16 + v3 / 4)
                :: (v3 % 4 * 64 + v4) :: bs)
            | none => none)
          | _, _, _, _ => none) = some (b1 :: b2 :: b3 :: rest)
      rw [if_neg (fun h => b64Char_ne_pad (b2 % 16 * 4 + b3 / 64) h.1),
        if_neg (fun h => b64Char_ne_pad (b3 % 64) h.1),
        b64Val_b64Char (b1 / 4) (by omega), b64Val_b64Char (b1 % 4 * 16 + b2 / 16) (by omega),
        b64Val_b64Char (b2 % 16 * 4 + b3 / 64) (by omega), b64Val_b64Char (b3 % 64) (by omega),
        hrest]
      show some ((b1 / 4 * 4 + (b1 % 4 * 16 + b2 / 16) / 16)
        :: ((b1 % 4 * 16 + b2 / 16) % 16 * 16 + (b2 % 16 * 4 + b3 / 64) / 4)
        :: ((b2 % 16 * 4 + b3 / 64) % 4 * 64 + b3 % 64) :: rest) = some (b1 :: b2 :: b3 :: rest)
      rw [show b1 / 4 * 4 + (b1 % 4 * 16 + b2 / 16) / 16 = b1 from by omega,
        show (b1 % 4 * 16 + b2 / 16) % 16 * 16 + (b2 % 16 * 4 + b3 / 64) / 4 = b2 from by omega,
        show (b2 % 16 * 4 + b3 / 64) % 4 * 64 + b3 % 64 = b3 from by omega]

theorem atob_btoa (bs : List Nat) (h : ∀ b ∈ bs, b < 256) : atob (btoa bs) = some bs :=
  atob_btoa_fuel bs.length bs le_rfl h

theorem utf8_bytes_lt (c : Char) : ∀ b ∈ utf8EncodeChar c, b < 256 := by
  have hv : c.toNat < 1114112 := by
    rcases char_valid_nat c with h | h
    · omega
    · omega
  intro b hb
  simp only [utf8EncodeChar] at hb
  split_ifs at hb <;> simp at hb <;> omega

/-! The document as `JSON.stringify` sees it, and the unchecked
`as OrgState` cast applied to the value `JSON.parse` returns.  Property
order in the printed objects is the insertion order of the source
literals; the decoder is order-insensitive, so the round-trip does not
depend on it.  `undefined`-valued optional fields are omitted by
`JSON.stringify`, hence the `Option` fields print no member when
`none`. -/

def jGet (j : Json) (k : String) : Option Json :=
  match j with
  | .obj ms => alookup k ms
  | _ => none

def jTruthy : Option Json → Bool
  | none => false
  | some (.str s) => s ≠ ""
  | some (.arr _) => true
  | some (.obj _) => true

def strD : Json → String
  | .str s => s
  | _ => ""

def jStr (j : Json) (k : String) : String :=
  match jGet j k with
  | some (.str s) => s
  | _ => ""

def jStrs (j : Json) (k : String) : List String :=
  match jGet j k with
  | some (.arr vs) => vs.map strD
  | _ => []

def jOptStr (j : Json) (k : String) : Option String :=
  match jGet j k with
  | some (.str s) => some s
  | _ => none

def jMembers (j : Json) (k : String) : List (String × Json) :=
  match jGet j k with
  | some (.obj ms) => ms
  | _ => []

def personToJson (p : Person) : Json :=
  .obj ([("id", .str p.id), ("name", .str p.name), ("role", .str p.role),
    ("level", .str p.level)]
    ++ (match p.email with | some e => [("email", Json.str e)] | none => [])
    ++ (match p.avatar with | some a => [("avatar", Json.str a)] | none => [])
    ++ [("tags", .arr (p.tags.map .str))]
    ++ (match p.reportsTo with | some r => [("reportsTo", Json.str r)] | none => [])
    ++ [("teamId", .str p.teamId)])

def personOfJsonD (j : Json) : Person :=
  { id := jStr j "id", name := jStr j "name", role := jStr j "role", level := jStr j "level",
    email := jOptStr j "email", avatar := jOptStr j "avatar", tags := jStrs j "tags",
    reportsTo := jOptStr j "reportsTo", teamId := jStr j "teamId" }

def teamToJson (t : Team) : Json :=
  .obj [("id", .str t.id), ("name", .str t.name), ("color", .str t.color),
    ("personIds", .arr (t.personIds.map .str)), ("products", .arr (t.products.map .str))]

def teamOfJsonD (j : Json) : Team :=
  { id := jStr j "id", name := jStr j "name", color := jStr j "color",
    personIds := jStrs j "personIds", products := jStrs j "products" }

def orgStateToJson (s : OrgState) : Json :=
  .obj [("teams", .obj (s.teams.map (fun kv => (kv.1, teamToJson kv.2)))),
    ("people", .obj (s.people.map (fun kv => (kv.1, personToJson kv.2)))),
    ("orgProducts", .arr (s.orgProducts.map .str))]

def jsonToOrgStateD (j : Json) : OrgState :=
  { teams := (jMembers j "teams").map (fun kv => (kv.1, teamOfJsonD kv.2)),
    people := (jMembers j "people").map (fun kv => (kv.1, personOfJsonD kv.2)),
    orgProducts := jStrs j "orgProducts" }

theorem strD_map (l : List String) : (l.map Json.str).map strD = l := by
  induction l with
  | nil => rfl
  | cons a l ih => simp [strD, ih]

theorem strD_comp_map (l : List String) : List.map (strD ∘ Json.str) l = l := by
  induction l with
  | nil => rfl
  | cons a l ih => simp [strD, ih]

theorem personOfJson_roundtrip (p : Person) : personOfJsonD (personToJson p) = p := by
  obtain ⟨id, name, role, level, email, avatar, tags, reportsTo, teamId⟩ := p
  cases email <;> cases avatar <;> cases reportsTo <;>
    simp [personOfJsonD, personToJson, jStr, jOptStr, jStrs, jGet, alookup, strD_map, strD_comp_map]

theorem teamOfJson_roundtrip (t : Team) : teamOfJsonD (teamToJson t) = t := by
  obtain ⟨id, name, color, personIds, products⟩ := t
  simp [teamOfJsonD, teamToJson, jStr, jStrs, jGet, alookup, strD_map, strD_comp_map]

theorem map_entry_fix {β : Type} (f : β → Json) (g : Json → β) (h : ∀ b, g (f b) = b) :
    ∀ l : List (String × β), List.map ((fun kv => (kv.1, g kv.2)) ∘ fun kv => (kv.1, f kv.2)) l = l := by
  intro l
  induction l with
  | nil => rfl
  | cons kv l ih => simp [ih, h kv.2]

theorem orgState_roundtrip (s : OrgState) : jsonToOrgStateD (orgStateToJson s) = s := by
  obtain ⟨teams, people, orgProducts⟩ := s
  simp [jsonToOrgStateD, orgStateToJson, jMembers, jStrs, jGet, alookup, strD_map, strD_comp_map,
    List.map_map]
  exact ⟨map_entry_fix teamToJson teamOfJsonD teamOfJson_roundtrip teams,
    map_entry_fix personToJson personOfJsonD personOfJson_roundtrip people⟩

theorem utf8List_lt (s : List Char) : ∀ b ∈ utf8EncodeList s, b < 256 := by
  intro b hb
  simp only [utf8EncodeList, List.mem_flatMap] at hb
  obtain ⟨c, _, hbc⟩ := hb
  exact utf8_bytes_lt c b hbc

/-! The share-link codec (`src/utils/shareUtils.ts`) and the file
import/export callbacks of `OrgProvider` (`src/context/OrgContext.tsx`).
`btoa(unescape(encodeURIComponent(json)))` is base64 over the UTF-8
bytes of the JSON text; the decoder composes the inverses.  A thrown
exception anywhere in `decodeOrgFromUrl` is caught and becomes `null`,
modelled by the `Option` chain. -/

/-- `encodeOrgToUrl`: `JSON.stringify(state)` (compact), UTF-8, base64. -/
def encodeOrgToUrl (s : OrgState) : List Char :=
  btoa (utf8EncodeList (printJson none 0 (orgStateToJson s)))

/-- `decodeOrgFromUrl`: base64 decode, UTF-8 decode, `JSON.parse`, then
the `state && state.teams && state.people` validation; any failure
yields `none` (the source's `null`). -/
def decodeOrgFromUrl (encoded : List Char) : Option OrgState :=
  match atob encoded with
  | none => none
  | some bytes =>
    match utf8DecodeList bytes with
    | none => none
    | some chars =>
      match jsonParse chars with
      | none => none
      | some j =>
        if jTruthy (some j) && jTruthy (jGet j "teams") && jTruthy (jGet j "people") then
          some (jsonToOrgStateD j)
        else none

/-- `exportOrg`: `JSON.stringify(state, null, 2)`. -/
def exportOrg (s : OrgState) : List Char :=
  printJson (some 2) 0 (orgStateToJson s)

/-- `importOrg` of `OrgProvider`: parse, validate
`importedState.teams && importedState.people`, then append a catalog
record, persist the document and make it current.  The second component
is the thrown error (`JSON.parse`'s SyntaxError, or `'Invalid org
data'`): on an error the provider state is returned unchanged, since the
source throws before any mutation.  `newId` stands for the generated
`org_<Date.now()>` and `now` for the timestamps. -/
def importOrg (ps : ProviderState) (jsonData : List Char) (name newId now : String) :
    ProviderState × Option String :=
  match jsonParse jsonData with
  | none => (ps, some "SyntaxError")
  | some j =>
    if jTruthy (jGet j "teams") && jTruthy (jGet j "people") then
      let st := jsonToOrgStateD j
      ({ savedOrgs :=
            ps.savedOrgs ++ [{ id := newId, name := name, createdAt := now, updatedAt := now }],
         currentOrgId := newId, state := st, storage := aset newId st ps.storage }, none)
    else (ps, some "Invalid org data")

/-- `importSharedOrg` of `OrgProvider`: the argument is the decoded but
unvalidated runtime value (the `as OrgState` cast), so it is a `Json`
here.  Rejects (returns `false`, state unchanged) when `teams` or
`people` is falsy; otherwise appends a `<name> (Copy)` record, persists
the document and makes it current. -/
def importSharedOrg (ps : ProviderState) (sharedState : Json) (name newId now : String) :
    ProviderState × Bool :=
  if jTruthy (jGet sharedState "teams") && jTruthy (jGet sharedState "people") then
    let st := jsonToOrgStateD sharedState
    ({ savedOrgs :=
          ps.savedOrgs
            ++ [{ id := newId, name := name ++ " (Copy)", createdAt := now, updatedAt := now }],
       currentOrgId := newId, state := st, storage := aset newId st ps.storage }, true)
  else (ps, false)

/-- A serialized document always passes the truthiness validation: the
value and its `teams` and `people` members are objects. -/
theorem orgStateToJson_truthy (D : OrgState) :
    (jTruthy (some (orgStateToJson D)) && jTruthy (jGet (orgStateToJson D) "teams")
      && jTruthy (jGet (orgStateToJson D) "people")) = true := by
  simp [orgStateToJson, jGet, jTruthy, alookup]

/-- C3: for every document `D`, the share-link codec round-trips
(`decodeOrgFromUrl (encodeOrgToUrl D) = D`), and parsing the
`exportOrg` serialization back the way `importOrg` does succeeds with
no error and installs a document deep-equal to `D` as the current
state. -/
theorem c3_codec_roundtrip (D : OrgState) :
    decodeOrgFromUrl (encodeOrgToUrl D) = some D ∧
    (∀ ps : ProviderState, ∀ name newId now : String,
      importOrg ps (exportOrg D) name newId now
        = ({ savedOrgs :=
              ps.savedOrgs
                ++ [{ id := newId, name := name, createdAt := now, updatedAt := now }],
             currentOrgId := newId, state := D, storage := aset newId D ps.storage }, none)) := by
  constructor
  · have hb := utf8List_lt (printJson none 0 (orgStateToJson D))
    simp only [decodeOrgFromUrl, encodeOrgToUrl, atob_btoa _ hb, utf8DecodeList_encode,
      jsonParse_print]
    have ht := orgStateToJson_truthy D
    simp only [Bool.and_eq_true] at ht
    rw [if_pos (by simp [ht.1.1, ht.1.2, ht.2]), orgState_roundtrip]
  · intro ps name newId now
    have ht := orgStateToJson_truthy D
    simp only [Bool.and_eq_true] at ht
    simp only [importOrg, exportOrg, jsonParse_print]
    rw [if_pos (by simp [ht.1.2, ht.2]), orgState_roundtrip]

/-- C4: a payload whose decoded content lacks the `teams` collection or
lacks the `people` collection is rejected on every import path:
`decodeOrgFromUrl` returns `none`, `importOrg` throws (`'Invalid org
data'`) leaving the provider state unchanged, and `importSharedOrg`
rejects, also leaving the provider state unchanged. -/
theorem c4_malformed_import_rejected (j : Json)
    (hj : jGet j "teams" = none ∨ jGet j "people" = none) :
    (∀ encoded bytes chars, atob encoded = some bytes → utf8DecodeList bytes = some chars →
      jsonParse chars = some j → decodeOrgFromUrl encoded = none) ∧
    (∀ ps : ProviderState, ∀ chars, ∀ name newId now : String, jsonParse chars = some j →
      importOrg ps chars name newId now = (ps, some "Invalid org data")) ∧
    (∀ ps : ProviderState, ∀ name newId now : String,
      importSharedOrg ps j name newId now = (ps, false)) := by
  have hfalse : (jTruthy (jGet j "teams") && jTruthy (jGet j "people")) = false := by
    rcases hj with h | h <;> simp [h, jTruthy]
  refine ⟨?_, ?_, ?_⟩
  · intro encoded bytes chars h1 h2 h3
    simp only [decodeOrgFromUrl, h1, h2, h3]
    rw [show (jTruthy (some j) && jTruthy (jGet j "teams") && jTruthy (jGet j "people"))
        = false from by rw [Bool.and_assoc, hfalse, Bool.and_false]]
    rfl
  · intro ps chars name newId now h1
    simp only [importOrg, h1]
    rw [hfalse]
    rfl
  · intro ps name newId now
    simp only [importSharedOrg]
    rw [hfalse]
    rfl

/-- A minimal provider state, for concrete evaluation. -/
def emptyProviderState : ProviderState :=
  { savedOrgs := [], currentOrgId := "", state := createEmptyOrgState, storage := [] }

theorem c4_malformed_import_rejected_witness :
    (jGet (Json.obj []) "teams" = none ∨ jGet (Json.obj []) "people" = none) ∧
    decodeOrgFromUrl (btoa (utf8EncodeList (printJson none 0 (Json.obj [])))) = none ∧
    importOrg emptyProviderState (printJson (some 2) 0 (Json.obj [])) "n" "org_1" "t"
      = (emptyProviderState, some "Invalid org data") ∧
    importSharedOrg emptyProviderState (Json.obj []) "n" "shared_1" "t"
      = (emptyProviderState, false) := by
  have h := c4_malformed_import_rejected (Json.obj []) (Or.inl rfl)
  exact ⟨Or.inl rfl, h.1 _ _ _ rfl rfl rfl, h.2.1 _ _ "n" "org_1" "t" rfl,
    h.2.2 _ "n" "shared_1" "t"⟩
